import Mathlib

/-!
Verification of the resilient browser-session orchestration layer of the
supabase-material-updater repository.

The development shallowly embeds the JavaScript sources:

* the batch recovery orchestrator (`processRemainingItems`,
  `recoverFromDisconnection`, `processAllMaterialItems`, `processItemSource`
  of the price-scraper module),
* the concurrency-bounded `TaskQueue` (src/utils/task-queue.js),
* the `BrowserPool` page cache (src/services/browser-pool.js),
* the `SessionManager` (src/services/session-manager.js).

Asynchronous JavaScript is modelled by explicit state passing: the outcome of
each awaited external operation (processing an item, relaunching the browser,
a page responding, a file write) is supplied by an environment/oracle so that
every control path of the source is represented.  Wall-clock aspects
(setTimeout delays) are not modelled; only the order of effects is.
-/

/-! ## String containment, mirroring JavaScript `String.prototype.includes` -/

/-- Whether the second character list starts with the first. -/
def startsWithChars : List Char → List Char → Bool
  | [], _ => true
  | _ :: _, [] => false
  | a :: as, b :: bs => (a == b) && startsWithChars as bs

/-- Whether the haystack (second argument) contains the needle (first argument)
as a contiguous substring. -/
def containsChars (needle : List Char) : List Char → Bool
  | [] => startsWithChars needle []
  | c :: rest => startsWithChars needle (c :: rest) || containsChars needle rest

/-- JavaScript `hay.includes(pat)`. -/
def strContains (hay pat : String) : Bool :=
  containsChars pat.toList hay.toList

/-- The disconnection-classifier used throughout the price scraper: an error
message is disconnection-class when it contains one of four substrings
(part_004 lines 145-148, 219-224, 376-380; browser-pool.js lines 260-263). -/
def isDisconnectMsg (msg : String) : Bool :=
  strContains msg "disconnected" || strContains msg "Target closed" ||
  strContains msg "Session closed" || strContains msg "Protocol error"

/-! ## Recovery orchestrator (price-scraper module, part_004)

Material items are identified by their id (a `Nat`).  The environment decides,
for each consultation instant `t` (a logical clock advanced once per awaited
operation), what the world does:

* `ItemOutcome` is the outcome of one `processMaterialItem` call together with
  the `!browserPool.browser` pre-check of the loop (lines 181-250):
  `ok success outdatedCount updatedSources` models a returned result object,
  `throwErr msg browserNull` an exception whose message is `msg` thrown while
  the browser reference is null iff `browserNull`, and `browserGone` the
  pre-check observing a null browser reference.
* `InitOutcome` is the outcome of the `browserPool.initialize()` call inside
  `recoverFromDisconnection` (line 127): it relaunches or throws.

`RecState` carries the logical clock, the module-level `recoveryAttempts`
counter, and two ghost counters used only by the theorems: `cycles` counts how
often `recoveryAttempts` was incremented (one per recovery cycle) and
`failures` counts how often `recoverFromDisconnection` returned its
failure-shaped object (lines 104-109 and 151-156). -/

/-- part_004 line 41: `const MAX_RECOVERY_ATTEMPTS = 5`. -/
def MAX_RECOVERY_ATTEMPTS : Nat := 5

/-- One entry of `results.details`: the result object of one material item,
keeping the fields the claims are about (part_004 lines 216, 244-249). -/
structure Detail where
  materialItemId : Nat
  success : Bool
  error : Option String
deriving Repr, DecidableEq

/-- The `results` accumulator of `processRemainingItems` (part_004 167-175).
`updatedItemSources` entries are identified by a `Nat` id. -/
structure Results where
  success : Nat
  failed : Nat
  skipped : Nat
  outdated : Nat
  materialUpdates : Nat
  details : List Detail
  updatedItemSources : List Nat
deriving Repr, DecidableEq

def emptyResults : Results := ⟨0, 0, 0, 0, 0, [], []⟩

/-- What `recoverFromDisconnection` returns: either a results object or the
failure-shaped object `{success:false, error, processed, total}`
(part_004 lines 104-109, 151-156). -/
inductive RunResult where
  | results (r : Results)
  | failure (error : String) (processed : Nat) (total : Nat)
deriving Repr, DecidableEq

inductive ItemOutcome where
  | ok (success : Bool) (outdatedCount : Nat) (updatedSources : List Nat)
  | throwErr (msg : String) (browserNull : Bool)
  | browserGone
deriving Repr, DecidableEq

inductive InitOutcome where
  | ok
  | throwErr (msg : String)
deriving Repr, DecidableEq

structure ScrapeEnv where
  item : Nat → ItemOutcome
  init : Nat → InitOutcome

structure RecState where
  t : Nat
  recoveryAttempts : Nat
  cycles : Nat
  failures : Nat
deriving Repr, DecidableEq

/-- The merge of a recovery result into the loop accumulator
(part_004 lines 186-196 and 228-238).  JavaScript evaluates
`results.success += recoveryResults.success || 0` etc.; on the failure-shaped
object `success` is the boolean `false` and `failed`/`skipped`/`outdated`/
`details`/`updatedItemSources` are absent, so every `|| 0` yields `0` and the
two `if` guards are skipped: the failure object contributes nothing. -/
def mergeRun (res : Results) : RunResult → Results
  | .results r2 =>
      { success := res.success + r2.success
        failed := res.failed + r2.failed
        skipped := res.skipped + r2.skipped
        outdated := res.outdated + r2.outdated
        materialUpdates := res.materialUpdates
        details := res.details ++ r2.details
        updatedItemSources := res.updatedItemSources ++ r2.updatedItemSources }
  | .failure _ _ _ => res

mutual

/-- The `for` loop of `processRemainingItems` (part_004 lines 177-251), with
`rest` the suffix `items.drop i` still to process and `res` the accumulator. -/
def processRemainingItemsLoop (env : ScrapeEnv) (items : List Nat)
    (rest : List Nat) (i : Nat) (res : Results) (st : RecState) :
    Results × RecState :=
  match rest with
  | [] => (res, st)
  | item :: rest' =>
    match env.item st.t with
    | .browserGone =>
        let p := recoverFromDisconnection env items i
          ⟨st.t + 1, st.recoveryAttempts, st.cycles, st.failures⟩
        (mergeRun res p.1, p.2)
    | .ok ok outdatedCount updatedSources =>
        let d : Detail := ⟨item, ok, none⟩
        let res' : Results :=
          if ok then
            { res with success := res.success + 1
                       updatedItemSources := res.updatedItemSources ++ updatedSources
                       details := res.details ++ [d] }
          else
            { res with failed := res.failed + 1
                       outdated := res.outdated + outdatedCount
                       details := res.details ++ [d] }
        processRemainingItemsLoop env items rest' (i + 1) res'
          ⟨st.t + 1, st.recoveryAttempts, st.cycles, st.failures⟩
    | .throwErr msg browserNull =>
        if isDisconnectMsg msg || browserNull then
          let p := recoverFromDisconnection env items i
            ⟨st.t + 1, st.recoveryAttempts, st.cycles, st.failures⟩
          (mergeRun res p.1, p.2)
        else
          processRemainingItemsLoop env items rest' (i + 1)
            { res with failed := res.failed + 1
                       details := res.details ++ [⟨item, false, some msg⟩] }
            ⟨st.t + 1, st.recoveryAttempts, st.cycles, st.failures⟩
termination_by (MAX_RECOVERY_ATTEMPTS + 1 - st.recoveryAttempts, rest.length + 1)

/-- part_004 lines 166-254. -/
def processRemainingItems (env : ScrapeEnv) (items : List Nat)
    (startIndex : Nat) (st : RecState) : Results × RecState :=
  processRemainingItemsLoop env items (items.drop startIndex) startIndex
    emptyResults st
termination_by (MAX_RECOVERY_ATTEMPTS + 1 - st.recoveryAttempts, items.length + 2)

/-- part_004 lines 101-158.  The attempt guard is checked on entry; then
`recoveryAttempts` is incremented (modelled together with the ghost `cycles`),
the pool is closed (errors swallowed) and reinitialized, and processing
resumes at `startIndex`.  A disconnection-class error during the attempt
recurses; any other error returns the failure-shaped object. -/
def recoverFromDisconnection (env : ScrapeEnv) (items : List Nat)
    (startIndex : Nat) (st : RecState) : RunResult × RecState :=
  if st.recoveryAttempts ≥ MAX_RECOVERY_ATTEMPTS then
    (.failure "Exceeded maximum recovery attempts" startIndex items.length,
     ⟨st.t, st.recoveryAttempts, st.cycles, st.failures + 1⟩)
  else
    match env.init st.t with
    | .ok =>
        let p := processRemainingItems env items startIndex
          ⟨st.t + 1, st.recoveryAttempts + 1, st.cycles + 1, st.failures⟩
        if startIndex + p.1.success + p.1.failed ≥ items.length then
          (.results p.1, ⟨p.2.t, 0, p.2.cycles, p.2.failures⟩)
        else
          (.results p.1, p.2)
    | .throwErr msg =>
        if isDisconnectMsg msg then
          recoverFromDisconnection env items startIndex
            ⟨st.t + 1, st.recoveryAttempts + 1, st.cycles + 1, st.failures⟩
        else
          (.failure msg startIndex items.length,
           ⟨st.t + 1, st.recoveryAttempts + 1, st.cycles + 1, st.failures + 1⟩)
termination_by (MAX_RECOVERY_ATTEMPTS + 1 - st.recoveryAttempts, 0)

end

/-- part_004 lines 676-755: the whole-batch entry point.  It resets the
recovery state, runs `processRemainingItems` from index 0 and wraps the
results in `{success:true, message, results}` (the Boolean). -/
def processAllMaterialItems (env : ScrapeEnv) (materialItems : List Nat) :
    Bool × Results :=
  (true, (processRemainingItems env materialItems 0 ⟨0, 0, 0, 0⟩).1)

/-! ## Environments for the recovery claims -/

/-- A world in which every attempt to relaunch the browser throws a
disconnection-class error: the pool persistently fails to stay connected
during reinitialization. -/
def envInitAlwaysDisc : ScrapeEnv :=
  ⟨fun _ => .browserGone, fun _ => .throwErr "Browser disconnected"⟩

/-- A world in which the relaunch succeeds but every item-processing attempt
immediately throws a disconnection-class error: the pool persistently fails to
stay connected during processing. -/
def envItemAlwaysDisc : ScrapeEnv :=
  ⟨fun _ => .throwErr "Protocol error" false, fun _ => .ok⟩

theorem envInitAlwaysDisc_init (u : Nat) :
    envInitAlwaysDisc.init u = .throwErr "Browser disconnected" := rfl

theorem envItemAlwaysDisc_init (u : Nat) :
    envItemAlwaysDisc.init u = .ok := rfl

theorem envItemAlwaysDisc_item (u : Nat) :
    envItemAlwaysDisc.item u = .throwErr "Protocol error" false := rfl

theorem isDisconnectMsg_browserDisconnected :
    isDisconnectMsg "Browser disconnected" = true := by decide

theorem isDisconnectMsg_protocolError :
    isDisconnectMsg "Protocol error" = true := by decide

theorem isDisconnectMsg_targetClosed :
    isDisconnectMsg "Target closed" = true := by decide

/-- Entering recovery with the attempt counter at (or beyond) the bound
returns the failure object immediately, for any environment. -/
theorem recover_at_cap (env : ScrapeEnv) (items : List Nat) (s : Nat)
    (st : RecState) (h : st.recoveryAttempts ≥ MAX_RECOVERY_ATTEMPTS) :
    recoverFromDisconnection env items s st =
      (.failure "Exceeded maximum recovery attempts" s items.length,
       ⟨st.t, st.recoveryAttempts, st.cycles, st.failures + 1⟩) := by
  rw [recoverFromDisconnection.eq_def]
  simp [h]

/-- Under `envInitAlwaysDisc`, recovery entered with `ra + k = 5` attempts
left performs exactly `k` further cycles and returns the failure object. -/
theorem recover_init_disc_chain :
    ∀ (k ra : Nat), ra + k = MAX_RECOVERY_ATTEMPTS →
    ∀ (items : List Nat) (s t c f : Nat),
      recoverFromDisconnection envInitAlwaysDisc items s ⟨t, ra, c, f⟩ =
        (.failure "Exceeded maximum recovery attempts" s items.length,
         ⟨t + k, MAX_RECOVERY_ATTEMPTS, c + k, f + 1⟩) := by
  intro k
  induction k with
  | zero =>
    intro ra h items s t c f
    have hra : ra = MAX_RECOVERY_ATTEMPTS := by omega
    subst hra
    rw [recover_at_cap envInitAlwaysDisc items s _ (le_refl _)]
    simp
  | succ k ih =>
    intro ra h items s t c f
    have hlt : ¬ (⟨t, ra, c, f⟩ : RecState).recoveryAttempts ≥ MAX_RECOVERY_ATTEMPTS := by
      simp [MAX_RECOVERY_ATTEMPTS] at h ⊢; omega
    rw [recoverFromDisconnection.eq_def]
    simp only [hlt, if_false, envInitAlwaysDisc_init,
      isDisconnectMsg_browserDisconnected, eq_self_iff_true, if_true]
    rw [ih (ra + 1) (by omega) items s (t + 1) (c + 1) f]
    have h1 : t + 1 + k = t + (k + 1) := by omega
    have h2 : c + 1 + k = c + (k + 1) := by omega
    rw [h1, h2]

/-- Under `envItemAlwaysDisc`, recovery entered below the bound relaunches
successfully, immediately hits another disconnection on the in-flight item and
recurses; the innermost exhausted call produces the failure object, but the
enclosing loop's merge absorbs it, so the overall call returns an empty
results object after the remaining `k` cycles. -/
theorem recover_item_disc_chain :
    ∀ (k ra : Nat), ra + k = MAX_RECOVERY_ATTEMPTS → 1 ≤ k →
    ∀ (items : List Nat) (s t c f : Nat), s < items.length →
      recoverFromDisconnection envItemAlwaysDisc items s ⟨t, ra, c, f⟩ =
        (.results emptyResults,
         ⟨t + 2 * k, MAX_RECOVERY_ATTEMPTS, c + k, f + 1⟩) := by
  intro k
  induction k with
  | zero => intro ra h hk; exact absurd hk (by omega)
  | succ k ih =>
    intro ra h hk items s t c f hs
    obtain ⟨x, xs, hdrop⟩ : ∃ x xs, items.drop s = x :: xs := by
      cases hd : items.drop s with
      | nil => exact absurd (List.drop_eq_nil_iff.mp hd) (by omega)
      | cons x xs => exact ⟨x, xs, rfl⟩
    have hlt : ¬ (⟨t, ra, c, f⟩ : RecState).recoveryAttempts ≥ MAX_RECOVERY_ATTEMPTS := by
      simp [MAX_RECOVERY_ATTEMPTS] at h ⊢; omega
    have hns : ¬ items.length ≤ s := by omega
    rcases Nat.eq_zero_or_pos k with hk0 | hk1
    · subst hk0
      have hcap :
          (⟨t + 2, ra + 1, c + 1, f⟩ : RecState).recoveryAttempts ≥ MAX_RECOVERY_ATTEMPTS := by
        simp [MAX_RECOVERY_ATTEMPTS] at h ⊢; omega
      have hq := recover_at_cap envItemAlwaysDisc items s _ hcap
      rw [recoverFromDisconnection.eq_def]
      simp only [hlt, if_false, envItemAlwaysDisc_init, processRemainingItems, hdrop]
      rw [processRemainingItemsLoop.eq_def]
      simp only [envItemAlwaysDisc_item, isDisconnectMsg_protocolError, Bool.true_or,
        eq_self_iff_true, if_true]
      rw [hq]
      simp [mergeRun, emptyResults, hns, MAX_RECOVERY_ATTEMPTS]
      simp [MAX_RECOVERY_ATTEMPTS] at h
      omega
    · have hq := ih (ra + 1) (by omega) hk1 items s (t + 2) (c + 1) f hs
      rw [recoverFromDisconnection.eq_def]
      simp only [hlt, if_false, envItemAlwaysDisc_init, processRemainingItems, hdrop]
      rw [processRemainingItemsLoop.eq_def]
      simp only [envItemAlwaysDisc_item, isDisconnectMsg_protocolError, Bool.true_or,
        eq_self_iff_true, if_true]
      rw [hq]
      simp [mergeRun, emptyResults, hns, MAX_RECOVERY_ATTEMPTS]
      omega

/-- C1 (amended).  Recovery bound: for every item list and start index, when
the browser persistently fails to stay connected the recovery routine
terminates after exactly `MAX_RECOVERY_ATTEMPTS = 5` recovery cycles (ghost
counter `cycles`), never looping indefinitely.  When every reinitialization
attempt itself fails with a disconnection-class error, the routine returns the
failure object carrying the number of items processed so far (`startIndex`)
and the total item count.  When reinitialization succeeds but the
disconnection persistently recurs during resumed item processing, the
exhaustion failure object is produced internally but absorbed by the
processing loop's merge, and the routine returns an empty results object
instead (still after exactly 5 cycles). -/
theorem C1_recovery_bound :
    (∀ (items : List Nat) (s t c f : Nat),
       recoverFromDisconnection envInitAlwaysDisc items s ⟨t, 0, c, f⟩ =
         (.failure "Exceeded maximum recovery attempts" s items.length,
          ⟨t + 5, 5, c + 5, f + 1⟩)) ∧
    (∀ (items : List Nat) (s t c f : Nat), s < items.length →
       recoverFromDisconnection envItemAlwaysDisc items s ⟨t, 0, c, f⟩ =
         (.results emptyResults, ⟨t + 10, 5, c + 5, f + 1⟩)) := by
  constructor
  · intro items s t c f
    have h := recover_init_disc_chain 5 0 (by decide) items s t c f
    simpa [MAX_RECOVERY_ATTEMPTS] using h
  · intro items s t c f hs
    have h := recover_item_disc_chain 5 0 (by decide) (by decide) items s t c f hs
    simpa [MAX_RECOVERY_ATTEMPTS] using h

/-- C1 witness: both parts of the amended recovery bound evaluated on the
one-item list `[7]` starting at index 0. -/
theorem C1_recovery_bound_witness :
    recoverFromDisconnection envInitAlwaysDisc [7] 0 ⟨0, 0, 0, 0⟩ =
      (.failure "Exceeded maximum recovery attempts" 0 1, ⟨5, 5, 5, 1⟩) ∧
    recoverFromDisconnection envItemAlwaysDisc [7] 0 ⟨0, 0, 0, 0⟩ =
      (.results emptyResults, ⟨10, 5, 5, 1⟩) := by
  constructor
  · have h := C1_recovery_bound.1 [7] 0 0 0 0
    simpa using h
  · have h := C1_recovery_bound.2 [7] 0 0 0 0 (by decide)
    simpa using h

/-- C1 counterexample: with the one-item list `[7]` and a pool that
persistently disconnects during resumed item processing, the recovery routine
performs its 5 cycles but does NOT return a failure result carrying the
processed count and the total count — the exhaustion failure object is
swallowed by the merge and an empty results object is returned, contradicting
the claim as stated. -/
theorem C1_recovery_bound_counterexample :
    (recoverFromDisconnection envItemAlwaysDisc [7] 0 ⟨0, 0, 0, 0⟩).1 ≠
        .failure "Exceeded maximum recovery attempts" 0 1 ∧
    (recoverFromDisconnection envItemAlwaysDisc [7] 0 ⟨0, 0, 0, 0⟩).1 =
        .results emptyResults ∧
    (recoverFromDisconnection envItemAlwaysDisc [7] 0 ⟨0, 0, 0, 0⟩).2.cycles = 5 := by
  have h := recover_item_disc_chain 5 0 (by decide) (by decide) [7] 0 0 0 0 (by decide)
  rw [show (2 * 5 : Nat) = 10 from rfl] at h
  refine ⟨?_, ?_, ?_⟩ <;> rw [h] <;> simp [MAX_RECOVERY_ATTEMPTS]

/-! ## C2: resume correctness -/

/-- The detail list produced by a run of consecutive successful items. -/
def mkOkDetails (l : List Nat) : List Detail :=
  l.map (fun id => ⟨id, true, none⟩)

/-- If from the current instant on every item-processing attempt succeeds,
the loop processes its whole suffix, producing one success and one detail
entry per item and touching no recovery state. -/
theorem loop_all_ok (env : ScrapeEnv) (items : List Nat) :
    ∀ (rest : List Nat) (i : Nat) (res : Results) (st : RecState),
      (∀ u, st.t ≤ u → env.item u = .ok true 0 []) →
      processRemainingItemsLoop env items rest i res st =
        ({ res with success := res.success + rest.length
                    details := res.details ++ mkOkDetails rest },
         ⟨st.t + rest.length, st.recoveryAttempts, st.cycles, st.failures⟩) := by
  intro rest
  induction rest with
  | nil =>
    intro i res st henv
    rw [processRemainingItemsLoop.eq_def]
    simp [mkOkDetails]
  | cons x rest ih =>
    intro i res st henv
    rw [processRemainingItemsLoop.eq_def]
    rw [henv st.t (le_refl _)]
    simp only [if_true]
    rw [ih (i + 1)
      { res with success := res.success + 1
                 updatedItemSources := res.updatedItemSources ++ []
                 details := res.details ++ [⟨x, true, none⟩] }
      ⟨st.t + 1, st.recoveryAttempts, st.cycles, st.failures⟩
      (fun u hu => henv u (by simp at hu ⊢; omega))]
    simp [mkOkDetails, Prod.ext_iff, Results.mk.injEq, RecState.mk.injEq]
    omega

/-- A world in which a disconnection-class error is thrown by exactly the
item-processing attempt made at instant `b` (the item in flight when the
disconnect occurs) and every other attempt — including the relaunch — runs
cleanly. -/
def envResume (b : Nat) : ScrapeEnv :=
  ⟨fun u => if u = b then .throwErr "Target closed" false else .ok true 0 [],
   fun _ => .ok⟩

theorem envResume_init (b u : Nat) : (envResume b).init u = .ok := rfl

theorem envResume_item_ne (b u : Nat) (h : u ≠ b) :
    (envResume b).item u = .ok true 0 [] := by
  simp [envResume, h]

theorem envResume_item_eq (b : Nat) :
    (envResume b).item b = .throwErr "Target closed" false := by
  simp [envResume]

/-- A recovery cycle whose relaunch succeeds and whose resumed processing
runs cleanly processes exactly the suffix `items.drop s`: the cursor is
unchanged, no committed item is reprocessed and the in-flight item is retried. -/
theorem recover_success_once (env : ScrapeEnv) (items : List Nat)
    (s t c f : Nat) (hinit : env.init t = .ok)
    (hitems : ∀ u, t + 1 ≤ u → env.item u = .ok true 0 [])
    (hs : s ≤ items.length) :
    recoverFromDisconnection env items s ⟨t, 0, c, f⟩ =
      (.results { emptyResults with
          success := items.length - s
          details := mkOkDetails (items.drop s) },
       ⟨t + 1 + (items.length - s), 0, c + 1, f⟩) := by
  have h05 : ¬ ((0 : Nat) ≥ MAX_RECOVERY_ATTEMPTS) := by decide
  rw [recoverFromDisconnection.eq_def]
  simp only [h05, if_false, hinit, processRemainingItems]
  rw [loop_all_ok env items (items.drop s) s emptyResults
    ⟨t + 1, 0 + 1, c + 1, f⟩ (fun u hu => hitems u hu)]
  simp [List.length_drop, emptyResults, Prod.ext_iff, Results.mk.injEq,
    RecState.mk.injEq]
  omega

/-- Running the loop from index `j ≤ b` under `envResume b` with the clock at
`j`: items `j..b-1` are processed cleanly, the disconnection strikes while
item `b` is in flight, and the single successful recovery resumes at cursor
`b`, so every remaining item (including the interrupted one) ends up processed
exactly once and exactly one recovery cycle is consumed. -/
theorem loop_resume (items : List Nat) (b : Nat) (hb : b < items.length) :
    ∀ (rest : List Nat) (j : Nat) (res : Results) (c f : Nat),
      items.drop j = rest → j ≤ b →
      processRemainingItemsLoop (envResume b) items rest j res ⟨j, 0, c, f⟩ =
        ({ res with success := res.success + rest.length
                    details := res.details ++ mkOkDetails rest },
         ⟨items.length + 2, 0, c + 1, f⟩) := by
  intro rest
  induction rest with
  | nil =>
    intro j res c f hdrop hj
    exact absurd (List.drop_eq_nil_iff.mp hdrop) (by omega)
  | cons x rest' ih =>
    intro j res c f hdrop hj
    rcases eq_or_lt_of_le hj with hjb | hjb
    · subst hjb
      have hlen : (x :: rest').length = items.length - j := by
        rw [← hdrop, List.length_drop]
      have hrfd := recover_success_once (envResume j) items j (j + 1) c f
        (envResume_init j (j + 1))
        (fun u hu => envResume_item_ne j u (by omega))
        (by omega)
      rw [processRemainingItemsLoop.eq_def]
      simp only [envResume_item_eq, isDisconnectMsg_targetClosed, Bool.true_or,
        eq_self_iff_true, if_true]
      rw [hrfd, hdrop]
      simp [mergeRun, emptyResults, Prod.ext_iff, Results.mk.injEq,
        RecState.mk.injEq, hlen]
      omega
    · have hdrop' : items.drop (j + 1) = rest' := by
        rw [← List.tail_drop, hdrop]
        rfl
      rw [processRemainingItemsLoop.eq_def]
      rw [envResume_item_ne b j (by omega)]
      simp only [if_true]
      rw [ih (j + 1)
        { res with success := res.success + 1
                   updatedItemSources := res.updatedItemSources ++ []
                   details := res.details ++ [⟨x, true, none⟩] }
        c f hdrop' (by omega)]
      simp [mkOkDetails, Prod.ext_iff, Results.mk.injEq, RecState.mk.injEq]
      omega

/-- C2.  Resume correctness: for every batch `items` of N material items, if a
disconnection-class error is thrown while item `i` is in flight (environment
`envResume i`) and the recovery succeeds, processing resumes at index `i`: the
interrupted item is retried, items before `i` are not reprocessed, item `i` is
not skipped, exactly one recovery cycle is consumed, and the final detail list
is exactly one successful entry per item `0..N-1` in order. -/
theorem C2_resume_correctness (items : List Nat) (i : Nat)
    (h : i < items.length) :
    processRemainingItems (envResume i) items 0 ⟨0, 0, 0, 0⟩ =
      ({ emptyResults with success := items.length
                           details := mkOkDetails items },
       ⟨items.length + 2, 0, 1, 0⟩) ∧
    (mkOkDetails items).map Detail.materialItemId = items := by
  constructor
  · have hl := loop_resume items i h items 0 emptyResults 0 0 (by simp) (by omega)
    rw [processRemainingItems.eq_def]
    simp only [List.drop_zero]
    rw [hl]
    simp [emptyResults]
  · simp only [mkOkDetails, List.map_map]
    exact List.map_id items

/-- C2 witness: the three-item batch `[3, 7, 9]` with the disconnection
injected while item 1 is in flight. -/
theorem C2_resume_correctness_witness :
    processRemainingItems (envResume 1) [3, 7, 9] 0 ⟨0, 0, 0, 0⟩ =
      ({ emptyResults with success := 3
                           details := [⟨3, true, none⟩, ⟨7, true, none⟩, ⟨9, true, none⟩] },
       ⟨5, 0, 1, 0⟩) ∧
    (mkOkDetails [3, 7, 9]).map Detail.materialItemId = [3, 7, 9] := by
  have h := C2_resume_correctness [3, 7, 9] 1 (by decide)
  obtain ⟨h1, h2⟩ := h
  refine ⟨?_, h2⟩
  simpa [mkOkDetails, emptyResults] using h1

/-! ## C3: result accounting -/

/-- The count total of a results object: `success + failed + skipped`. -/
def sumCounts (r : Results) : Nat := r.success + r.failed + r.skipped

/-- Accounting property of the loop, bounded by the recovery budget left:
the ghost failure counter never decreases, and whenever no failure object was
produced during the call, the counts grow by exactly one per item of the
processed suffix. -/
def LoopCountsOk (env : ScrapeEnv) (items : List Nat) (k : Nat) : Prop :=
  ∀ (rest : List Nat) (i : Nat) (res : Results) (st : RecState),
    items.drop i = rest →
    MAX_RECOVERY_ATTEMPTS + 1 - st.recoveryAttempts ≤ k →
    st.failures ≤ (processRemainingItemsLoop env items rest i res st).2.failures ∧
    ((processRemainingItemsLoop env items rest i res st).2.failures = st.failures →
      sumCounts (processRemainingItemsLoop env items rest i res st).1 =
        sumCounts res + rest.length)

/-- Accounting property of the recovery routine: the ghost failure counter
never decreases, and whenever no failure object was produced, the routine
returns a results object accounting for every item from the cursor on. -/
def RecCountsOk (env : ScrapeEnv) (items : List Nat) (k : Nat) : Prop :=
  ∀ (s : Nat) (st : RecState), s < items.length →
    MAX_RECOVERY_ATTEMPTS + 1 - st.recoveryAttempts ≤ k →
    st.failures ≤ (recoverFromDisconnection env items s st).2.failures ∧
    ((recoverFromDisconnection env items s st).2.failures = st.failures →
      ∃ r, (recoverFromDisconnection env items s st).1 = .results r ∧
        s + sumCounts r = items.length)

theorem rec_counts_zero (env : ScrapeEnv) (items : List Nat) :
    RecCountsOk env items 0 := by
  intro s st hs hk
  have hcap : st.recoveryAttempts ≥ MAX_RECOVERY_ATTEMPTS := by
    simp [MAX_RECOVERY_ATTEMPTS] at hk ⊢; omega
  rw [recover_at_cap env items s st hcap]
  exact ⟨by simp, fun hf => absurd hf (by simp)⟩

theorem loop_counts (env : ScrapeEnv) (items : List Nat) (k : Nat)
    (hrec : RecCountsOk env items k) : LoopCountsOk env items k := by
  intro rest
  induction rest with
  | nil =>
    intro i res st hdrop hk
    rw [processRemainingItemsLoop.eq_def]
    exact ⟨le_refl _, fun _ => by simp [sumCounts]⟩
  | cons x rest' ihr =>
    intro i res st hdrop hk
    have hi : i < items.length := by
      by_contra hc
      push_neg at hc
      have hnil : items.drop i = [] := List.drop_eq_nil_iff.mpr hc
      rw [hnil] at hdrop
      exact List.noConfusion hdrop
    have hlen : (x :: rest').length = items.length - i := by
      rw [← hdrop, List.length_drop]
    have hdrop' : items.drop (i + 1) = rest' := by
      rw [← List.tail_drop, hdrop]
      rfl
    rw [processRemainingItemsLoop.eq_def]
    cases hev : env.item st.t with
    | browserGone =>
      simp only [hev]
      obtain ⟨hmono, heq⟩ := hrec i
        ⟨st.t + 1, st.recoveryAttempts, st.cycles, st.failures⟩ hi (by simpa using hk)
      refine ⟨by simpa using hmono, fun hf => ?_⟩
      obtain ⟨r, hr, hsum⟩ := heq (by simpa using hf)
      simp only [List.length_cons] at hlen
      simp only [hr, mergeRun, sumCounts] at hsum ⊢
      simp [sumCounts] at hsum ⊢
      clear heq hmono hf hr hev ihr hrec
      omega
    | ok b oc us =>
      simp only [hev]
      have hres' : ∀ res'' : Results,
          (res'' = (if b then
            { res with success := res.success + 1
                       updatedItemSources := res.updatedItemSources ++ us
                       details := res.details ++ [⟨x, b, none⟩] }
          else
            { res with failed := res.failed + 1
                       outdated := res.outdated + oc
                       details := res.details ++ [⟨x, b, none⟩] })) →
          sumCounts res'' = sumCounts res + 1 := by
        intro res'' hres''
        cases b <;> simp [hres'', sumCounts] <;> omega
      obtain ⟨hmono, heq⟩ := ihr (i + 1) _
        ⟨st.t + 1, st.recoveryAttempts, st.cycles, st.failures⟩ hdrop' (by simpa using hk)
      refine ⟨by simpa using hmono, fun hf => ?_⟩
      have := heq (by simpa using hf)
      rw [this, hres' _ rfl]
      simp
      omega
    | throwErr msg bn =>
      simp only [hev]
      cases hc : (isDisconnectMsg msg || bn) with
      | true =>
        simp only [hc, if_true]
        obtain ⟨hmono, heq⟩ := hrec i
          ⟨st.t + 1, st.recoveryAttempts, st.cycles, st.failures⟩ hi (by simpa using hk)
        refine ⟨by simpa using hmono, fun hf => ?_⟩
        obtain ⟨r, hr, hsum⟩ := heq (by simpa using hf)
        simp only [List.length_cons] at hlen
        simp only [hr, mergeRun, sumCounts] at hsum ⊢
        simp [sumCounts] at hsum ⊢
        clear heq hmono hf hr hev ihr hrec
        omega
      | false =>
        simp only [hc, Bool.false_eq_true, if_false]
        obtain ⟨hmono, heq⟩ := ihr (i + 1) _
          ⟨st.t + 1, st.recoveryAttempts, st.cycles, st.failures⟩ hdrop' (by simpa using hk)
        refine ⟨by simpa using hmono, fun hf => ?_⟩
        have h2 := heq (by simpa using hf)
        rw [h2]
        simp [sumCounts]
        clear heq hmono hf hev ihr hrec
        omega

theorem rec_counts (env : ScrapeEnv) (items : List Nat) (k : Nat)
    (hloop : LoopCountsOk env items k) (hrec : RecCountsOk env items k) :
    RecCountsOk env items (k + 1) := by
  intro s st hs hk
  by_cases hcap : st.recoveryAttempts ≥ MAX_RECOVERY_ATTEMPTS
  · rw [recover_at_cap env items s st hcap]
    exact ⟨by simp, fun hf => absurd hf (by simp)⟩
  · rw [recoverFromDisconnection.eq_def]
    simp only [hcap, if_false]
    cases hin : env.init st.t with
    | ok =>
      simp only [processRemainingItems]
      have hb : MAX_RECOVERY_ATTEMPTS + 1 -
          (⟨st.t + 1, st.recoveryAttempts + 1, st.cycles + 1, st.failures⟩ :
            RecState).recoveryAttempts ≤ k := by
        simp
        omega
      obtain ⟨hmono, heq⟩ := hloop (items.drop s) s emptyResults
        ⟨st.t + 1, st.recoveryAttempts + 1, st.cycles + 1, st.failures⟩ rfl hb
      split
      · refine ⟨by simpa using hmono, fun hf => ?_⟩
        have hsum := heq (by simpa using hf)
        refine ⟨_, rfl, ?_⟩
        rw [hsum]
        simp [sumCounts, emptyResults, List.length_drop]
        omega
      · refine ⟨by simpa using hmono, fun hf => ?_⟩
        have hsum := heq (by simpa using hf)
        refine ⟨_, rfl, ?_⟩
        rw [hsum]
        simp [sumCounts, emptyResults, List.length_drop]
        omega
    | throwErr msg =>
      cases hd : isDisconnectMsg msg with
      | true =>
        simp only [hd, if_true]
        have hb : MAX_RECOVERY_ATTEMPTS + 1 -
            (⟨st.t + 1, st.recoveryAttempts + 1, st.cycles + 1, st.failures⟩ :
              RecState).recoveryAttempts ≤ k := by
          simp
          omega
        obtain ⟨hmono, heq⟩ := hrec s
          ⟨st.t + 1, st.recoveryAttempts + 1, st.cycles + 1, st.failures⟩ hs hb
        exact ⟨by simpa using hmono, fun hf => heq (by simpa using hf)⟩
      | false =>
        simp only [hd, Bool.false_eq_true, if_false]
        exact ⟨by simp, fun hf => absurd hf (by simp)⟩

theorem counts_ok (env : ScrapeEnv) (items : List Nat) :
    ∀ k, RecCountsOk env items k ∧ LoopCountsOk env items k := by
  intro k
  induction k with
  | zero =>
    exact ⟨rec_counts_zero env items,
      loop_counts env items 0 (rec_counts_zero env items)⟩
  | succ k ih =>
    have hr := rec_counts env items k ih.2 ih.1
    exact ⟨hr, loop_counts env items (k + 1) hr⟩

/-- A world in which every operation succeeds. -/
def envAllOk : ScrapeEnv := ⟨fun _ => .ok true 0 [], fun _ => .ok⟩

/-- C3 (amended).  Result accounting: for every environment and every input
list of material items, the batch run's counts satisfy
`success + failed + skipped = length` whenever no recovery cycle ended in the
failure-shaped object (ghost counter `failures` still zero) — in particular
for every run that completes, with or without successful recoveries.  On the
recovery-exhausted path the failure object is absorbed as zero counts by the
merge (see the counterexample), so the equality does not extend to it. -/
theorem C3_result_accounting (env : ScrapeEnv) (items : List Nat)
    (h : (processRemainingItems env items 0 ⟨0, 0, 0, 0⟩).2.failures = 0) :
    sumCounts (processRemainingItems env items 0 ⟨0, 0, 0, 0⟩).1 =
      items.length := by
  have hrw : processRemainingItems env items 0 ⟨0, 0, 0, 0⟩ =
      processRemainingItemsLoop env items items 0 emptyResults ⟨0, 0, 0, 0⟩ := by
    rw [processRemainingItems.eq_def, List.drop_zero]
  rw [hrw] at h ⊢
  have hl := (counts_ok env items (MAX_RECOVERY_ATTEMPTS + 1)).2 items 0
    emptyResults ⟨0, 0, 0, 0⟩ (List.drop_zero items) (by simp)
  have := hl.2 h
  simpa [sumCounts, emptyResults] using this

/-- C3 witness: the two-item batch `[4, 5]` in the always-successful world
has zero recovery failures and its counts sum to the input length. -/
theorem C3_result_accounting_witness :
    sumCounts (processRemainingItems envAllOk [4, 5] 0 ⟨0, 0, 0, 0⟩).1 =
      ([4, 5] : List Nat).length := by
  refine C3_result_accounting envAllOk [4, 5] ?_
  have h := loop_all_ok envAllOk [4, 5] [4, 5] 0 emptyResults ⟨0, 0, 0, 0⟩
    (fun u _ => rfl)
  have hrw : processRemainingItems envAllOk [4, 5] 0 ⟨0, 0, 0, 0⟩ =
      processRemainingItemsLoop envAllOk [4, 5] [4, 5] 0 emptyResults
        ⟨0, 0, 0, 0⟩ := by
    rw [processRemainingItems.eq_def]
    rfl
  rw [hrw, h]

/-- C3 counterexample: on the one-item batch `[7]` with a persistently
disconnecting browser the run ends through the recovery-exhausted path; the
returned structured result has `success + failed + skipped = 0`, which is not
the input length 1 — the items beyond the cursor are unaccounted and the
failure object's processed/total payload is lost in the merge. -/
theorem C3_result_accounting_counterexample :
    sumCounts (processAllMaterialItems envItemAlwaysDisc [7]).2 = 0 ∧
    sumCounts (processAllMaterialItems envItemAlwaysDisc [7]).2 ≠
      ([7] : List Nat).length := by
  have hrfd := recover_item_disc_chain 5 0 (by decide) (by decide) [7] 0 1 0 0
    (by decide)
  have hrun : processAllMaterialItems envItemAlwaysDisc [7] =
      (true, mergeRun emptyResults (.results emptyResults)) := by
    rw [processAllMaterialItems]
    rw [processRemainingItems.eq_def]
    rw [show List.drop 0 [7] = [7] from rfl]
    rw [processRemainingItemsLoop.eq_def]
    simp only [envItemAlwaysDisc_item, isDisconnectMsg_protocolError,
      Bool.true_or, eq_self_iff_true, if_true]
    rw [hrfd]
  rw [hrun]
  constructor
  · rfl
  · rw [show sumCounts (true, mergeRun emptyResults
      (.results emptyResults)).2 = 0 from rfl]
    decide

/-! ## C7: error containment at the item boundary

`processItemSource` (part_004 lines 292-389) embedded by its control flow.
`SourceEvent` is what the world does during the call: the browser reference is
null at the entry check; the screenshot comes back null; the price extraction
comes back null; a price is extracted; or an exception with message `msg` is
thrown while the browser reference is null iff `browserNull`.  The result
object keeps the fields the claim is about (id, item id, success, outdated,
error); prices are not modelled. -/

inductive SourceEvent where
  | browserGoneAtStart
  | screenshotFail
  | extractFail
  | priceOk
  | throwErr (msg : String) (browserNull : Bool)
deriving Repr, DecidableEq

structure SourceResult where
  id : Nat
  materialItemId : Nat
  success : Bool
  outdated : Bool
  error : Option String
deriving Repr, DecidableEq

/-- part_004 lines 292-389.  `Except.error` models an exception propagating
out of the function; `Except.ok` a returned result record.  The entry throw
(line 308) is caught by the function's own catch, whose message check matches
"disconnected", so it is rethrown wrapped (lines 376-383). -/
def processItemSource (ev : SourceEvent) (sourceId materialItemId : Nat) :
    Except String SourceResult :=
  match ev with
  | .browserGoneAtStart =>
      .error ("Browser disconnection during item source processing: " ++
        "Browser disconnected before processing item source")
  | .screenshotFail =>
      .ok ⟨sourceId, materialItemId, false, true, some "Failed to take screenshot"⟩
  | .extractFail =>
      .ok ⟨sourceId, materialItemId, false, true, some "Failed to extract price"⟩
  | .priceOk =>
      .ok ⟨sourceId, materialItemId, true, false, none⟩
  | .throwErr msg browserNull =>
      if isDisconnectMsg msg || browserNull then
        .error ("Browser disconnection during item source processing: " ++ msg)
      else
        .ok ⟨sourceId, materialItemId, false, false, some msg⟩

/-- A world in which the item-processing attempt at instant `b` throws a
non-disconnection error `msg` and every other attempt runs cleanly. -/
def envOneThrow (b : Nat) (msg : String) : ScrapeEnv :=
  ⟨fun u => if u = b then .throwErr msg false else .ok true 0 [],
   fun _ => .ok⟩

theorem envOneThrow_item_ne (b : Nat) (msg : String) (u : Nat) (h : u ≠ b) :
    (envOneThrow b msg).item u = .ok true 0 [] := by
  simp [envOneThrow, h]

theorem envOneThrow_item_eq (b : Nat) (msg : String) :
    (envOneThrow b msg).item b = .throwErr msg false := by
  simp [envOneThrow]

/-- The detail list of a run whose only failure is the item at offset `p` of
the remaining list, failed with error `msg`. -/
def mixDetails (msg : String) : List Nat → Nat → List Detail
  | [], _ => []
  | x :: r, 0 => ⟨x, false, some msg⟩ :: mkOkDetails r
  | x :: r, p + 1 => ⟨x, true, none⟩ :: mixDetails msg r p

theorem mixDetails_map (msg : String) :
    ∀ (l : List Nat) (p : Nat),
      (mixDetails msg l p).map Detail.materialItemId = l := by
  intro l
  induction l with
  | nil => intro p; rfl
  | cons x r ih =>
    intro p
    cases p with
    | zero =>
      simp only [mixDetails, List.map_cons, mkOkDetails, List.map_map]
      exact congrArg (List.cons x) (List.map_id r)
    | succ q =>
      simp only [mixDetails, List.map_cons, ih q]

/-- Running the loop from index `j` with the single non-disconnection error
injected at instant `b = j + p`: the erroring item is recorded as a failure
detail, every sibling is still processed, and no recovery state is touched. -/
theorem loop_one_throw (items : List Nat) (b : Nat) (msg : String)
    (hb : b < items.length) (hm : isDisconnectMsg msg = false) :
    ∀ (rest : List Nat) (j p : Nat) (res : Results) (c f : Nat),
      items.drop j = rest → j + p = b →
      processRemainingItemsLoop (envOneThrow b msg) items rest j res
        ⟨j, 0, c, f⟩ =
        ({ res with success := res.success + (rest.length - 1)
                    failed := res.failed + 1
                    details := res.details ++ mixDetails msg rest p },
         ⟨j + rest.length, 0, c, f⟩) := by
  intro rest
  induction rest with
  | nil =>
    intro j p res c f hdrop hjp
    exact absurd (List.drop_eq_nil_iff.mp hdrop) (by omega)
  | cons x rest' ih =>
    intro j p res c f hdrop hjp
    have hlen : (x :: rest').length = items.length - j := by
      rw [← hdrop, List.length_drop]
    simp only [List.length_cons] at hlen
    have hdrop' : items.drop (j + 1) = rest' := by
      rw [← List.tail_drop, hdrop]
      rfl
    cases p with
    | zero =>
      have hj : j = b := by omega
      subst hj
      rw [processRemainingItemsLoop.eq_def]
      rw [envOneThrow_item_eq]
      simp only [hm, Bool.or_false, Bool.false_eq_true, if_false]
      rw [loop_all_ok (envOneThrow j msg) items rest' (j + 1)
        { res with failed := res.failed + 1
                   details := res.details ++ [⟨x, false, some msg⟩] }
        ⟨j + 1, 0, c, f⟩
        (fun u hu => envOneThrow_item_ne j msg u (by simp at hu; omega))]
      simp [mixDetails, Prod.ext_iff, Results.mk.injEq, RecState.mk.injEq]
      omega
    | succ q =>
      have hj : j ≠ b := by omega
      rw [processRemainingItemsLoop.eq_def]
      rw [envOneThrow_item_ne b msg j hj]
      simp only [if_true]
      rw [ih (j + 1) q
        { res with success := res.success + 1
                   updatedItemSources := res.updatedItemSources ++ []
                   details := res.details ++ [⟨x, true, none⟩] }
        c f hdrop' (by omega)]
      simp [mixDetails, Prod.ext_iff, Results.mk.injEq, RecState.mk.injEq]
      omega

/-- C7.  Error containment: an error raised during an item's processing that
is not browser-disconnection-class is caught at the item boundary and
converted into a failure result record (first conjunct), and processing of
sibling items continues — the run under `envOneThrow` records the erroring
item as one failed detail while every sibling is still processed, with no
recovery triggered (fourth/fifth conjuncts).  Only disconnection-class
errors, or an error thrown while the browser reference is null, propagate out
of `processItemSource` (second and third conjuncts). -/
theorem C7_error_containment :
    (∀ (msg : String) (sid iid : Nat), isDisconnectMsg msg = false →
       processItemSource (.throwErr msg false) sid iid =
         .ok ⟨sid, iid, false, false, some msg⟩) ∧
    (∀ (msg : String) (sid iid : Nat), isDisconnectMsg msg = true →
       processItemSource (.throwErr msg false) sid iid =
         .error ("Browser disconnection during item source processing: " ++ msg)) ∧
    (∀ (msg : String) (sid iid : Nat),
       processItemSource (.throwErr msg true) sid iid =
         .error ("Browser disconnection during item source processing: " ++ msg)) ∧
    (∀ (items : List Nat) (b : Nat) (msg : String),
       b < items.length → isDisconnectMsg msg = false →
       processRemainingItems (envOneThrow b msg) items 0 ⟨0, 0, 0, 0⟩ =
         ({ emptyResults with success := items.length - 1
                              failed := 1
                              details := mixDetails msg items b },
          ⟨items.length, 0, 0, 0⟩)) ∧
    (∀ (msg : String) (l : List Nat) (p : Nat),
       (mixDetails msg l p).map Detail.materialItemId = l) := by
  refine ⟨?_, ?_, ?_, ?_, ?_⟩
  · intro msg sid iid hm
    simp [processItemSource, hm]
  · intro msg sid iid hm
    simp [processItemSource, hm]
  · intro msg sid iid
    simp [processItemSource]
  · intro items b msg hb hm
    have hl := loop_one_throw items b msg hb hm items 0 b emptyResults 0 0
      (List.drop_zero items) (by omega)
    rw [processRemainingItems.eq_def, List.drop_zero, hl]
    simp [emptyResults]
  · exact fun msg l p => mixDetails_map msg l p

/-- C7 witness: a non-disconnection error "boom" is converted into a result
record and sibling processing continues on the batch `[4, 5]`; the
disconnection-class message "Target closed" propagates. -/
theorem C7_error_containment_witness :
    processItemSource (.throwErr "boom" false) 1 2 =
      .ok ⟨1, 2, false, false, some "boom"⟩ ∧
    processItemSource (.throwErr "Target closed" false) 1 2 =
      .error ("Browser disconnection during item source processing: " ++
        "Target closed") ∧
    processRemainingItems (envOneThrow 0 "boom") [4, 5] 0 ⟨0, 0, 0, 0⟩ =
      ({ emptyResults with success := 1
                           failed := 1
                           details := [⟨4, false, some "boom"⟩, ⟨5, true, none⟩] },
       ⟨2, 0, 0, 0⟩) := by
  refine ⟨C7_error_containment.1 "boom" 1 2 (by decide),
    C7_error_containment.2.1 "Target closed" 1 2 (by decide), ?_⟩
  have h := C7_error_containment.2.2.2.1 [4, 5] 0 "boom" (by decide) (by decide)
  simpa [mixDetails, mkOkDetails, emptyResults] using h

/-! ## TaskQueue (src/utils/task-queue.js)

A task is identified by its name and priority; `arrival` is a ghost stamp
recording submission order (JavaScript needs none because `Array.prototype.sort`
is stable, ES2019).  The asynchronous life of a task is modelled by two
events: `add` enqueues and synchronously runs `runNext` (lines 23-37), and
`settle i ok d` is the settlement of the `i`-th currently running task, which
records its outcome and then runs `runNext` again (lines 57-93: the
`then`/`catch` push the outcome before `finally` decrements `running` and
calls `runNext`).  `runNext` (lines 42-99) starts as many queued tasks as the
concurrency cap allows: it starts one task and recurses, which is what the
source's self-call on line 97 plus the entry guard amount to. -/

structure QTask where
  taskName : String
  priority : Int
  arrival : Nat
deriving Repr, DecidableEq

structure TQOutcome where
  taskName : String
  success : Bool
  duration : Nat
deriving Repr, DecidableEq

structure TaskQueue where
  concurrency : Nat
  running : List QTask
  queue : List QTask
  results : List TQOutcome
  nextArrival : Nat
deriving Repr, DecidableEq

/-- Constructor (lines 7-13): `options.concurrency || 3`, so an absent or
zero (falsy) value falls back to 3. -/
def mkTaskQueue (c : Option Nat) : TaskQueue :=
  { concurrency :=
      match c with
      | none => 3
      | some 0 => 3
      | some n => n
    running := []
    queue := []
    results := []
    nextArrival := 0 }

/-- Stable insertion used to model the in-place
`queue.sort((a, b) => b.priority - a.priority)` (line 48): the element is
placed before the first strictly-lower-priority element, after any earlier
element of equal priority — a stable descending sort, which is what the
ECMAScript specification guarantees for this comparator. -/
def insertDesc (x : QTask) : List QTask → List QTask
  | [] => [x]
  | y :: ys => if y.priority ≤ x.priority then x :: y :: ys else y :: insertDesc x ys

def sortDesc : List QTask → List QTask
  | [] => []
  | x :: xs => insertDesc x (sortDesc xs)

theorem length_insertDesc (x : QTask) :
    ∀ l : List QTask, (insertDesc x l).length = l.length + 1 := by
  intro l
  induction l with
  | nil => rfl
  | cons y ys ih =>
    rw [insertDesc]
    split
    · rfl
    · simp [ih]

theorem length_sortDesc : ∀ l : List QTask, (sortDesc l).length = l.length := by
  intro l
  induction l with
  | nil => rfl
  | cons x xs ih =>
    rw [sortDesc, length_insertDesc, ih]
    rfl

theorem insertDesc_perm (x : QTask) :
    ∀ l : List QTask, (insertDesc x l).Perm (x :: l) := by
  intro l
  induction l with
  | nil => exact List.Perm.refl _
  | cons y ys ih =>
    rw [insertDesc]
    split
    · exact List.Perm.refl _
    · exact ((ih.cons y).trans (List.Perm.swap x y ys))

theorem sortDesc_perm : ∀ l : List QTask, (sortDesc l).Perm l := by
  intro l
  induction l with
  | nil => exact List.Perm.refl _
  | cons x xs ih => exact (insertDesc_perm x (sortDesc xs)).trans (ih.cons x)

theorem mem_sortDesc (l : List QTask) (q : QTask) :
    q ∈ sortDesc l ↔ q ∈ l :=
  (sortDesc_perm l).mem_iff

/-- The combined order established by the stable sort: strictly higher
priority first, earlier arrival first among equal priorities. -/
abbrev CombOrd (a b : QTask) : Prop :=
  b.priority < a.priority ∨ (a.priority = b.priority ∧ a.arrival < b.arrival)

/-- The arrival-order coherence of a queue: any two equal-priority entries
appear in submission order. -/
abbrev TieOrd (a b : QTask) : Prop :=
  a.priority = b.priority → a.arrival < b.arrival

theorem insertDesc_pairwise (x : QTask) :
    ∀ l : List QTask, l.Pairwise CombOrd →
      (∀ y ∈ l, x.priority = y.priority → x.arrival < y.arrival) →
      (insertDesc x l).Pairwise CombOrd := by
  intro l
  induction l with
  | nil =>
    intro _ _
    simp [insertDesc]
  | cons y ys ih =>
    intro hp hx
    rw [insertDesc]
    rcases List.pairwise_cons.mp hp with ⟨hy, hys⟩
    split
    · rename_i hle
      refine List.pairwise_cons.mpr ⟨?_, hp⟩
      intro z hz
      have hzpri : z.priority ≤ y.priority := by
        rcases List.mem_cons.mp hz with rfl | hz2
        · exact le_refl _
        · rcases hy z hz2 with h | h
          · exact le_of_lt h
          · exact le_of_eq h.1.symm
      rcases lt_or_eq_of_le (le_trans hzpri hle) with hlt | heqp
      · exact Or.inl hlt
      · exact Or.inr ⟨heqp.symm, hx z hz heqp.symm⟩
    · rename_i hgt
      push_neg at hgt
      refine List.pairwise_cons.mpr ⟨?_, ih hys (fun z hz h => hx z (by simp [hz]) h)⟩
      intro z hz
      have hz' : z = x ∨ z ∈ ys := by
        have := (insertDesc_perm x ys).mem_iff.mp hz
        simpa using this
      rcases hz' with rfl | hz'
      · exact Or.inl hgt
      · exact hy z hz'

theorem sortDesc_pairwise :
    ∀ l : List QTask, l.Pairwise TieOrd → (sortDesc l).Pairwise CombOrd := by
  intro l
  induction l with
  | nil => intro _; simp [sortDesc]
  | cons x xs ih =>
    intro hp
    rcases List.pairwise_cons.mp hp with ⟨hx, hxs⟩
    rw [sortDesc]
    refine insertDesc_pairwise x (sortDesc xs) (ih hxs) ?_
    intro y hy
    exact hx y ((mem_sortDesc xs y).mp hy)

/-- task-queue.js lines 42-99.  The entry guard returns when the cap is
reached or nothing is queued; otherwise the queue is sorted in place by
descending priority (stable), the head is shifted and started, and the
function re-invokes itself while capacity remains (line 96-98). -/
def runNext (s : TaskQueue) : TaskQueue :=
  if s.running.length ≥ s.concurrency ∨ s.queue = [] then s
  else
    match h : sortDesc s.queue with
    | [] => s
    | t :: rest =>
        runNext { s with queue := rest, running := s.running ++ [t] }
termination_by s.queue.length
decreasing_by
  have hlen := length_sortDesc s.queue
  rw [h] at hlen
  simp at hlen
  simp
  omega

/-- task-queue.js lines 23-37: enqueue (with the ghost arrival stamp) and run. -/
def TaskQueue.add (s : TaskQueue) (taskName : String) (priority : Int) :
    TaskQueue :=
  runNext { s with queue := s.queue ++ [⟨taskName, priority, s.nextArrival⟩]
                   nextArrival := s.nextArrival + 1 }

/-- task-queue.js lines 57-93: the settlement of the `i`-th running task
records its outcome (name, ok/error, duration), frees the slot and
immediately attempts to fill it.  Settling an index that is not running is a
no-op (cannot happen in real traces). -/
def TaskQueue.settle (s : TaskQueue) (i : Nat) (ok : Bool) (duration : Nat) :
    TaskQueue :=
  match s.running[i]? with
  | none => s
  | some t =>
      runNext { s with running := s.running.eraseIdx i
                       results := s.results ++ [⟨t.taskName, ok, duration⟩] }

inductive TQEvent where
  | add (taskName : String) (priority : Int)
  | settle (i : Nat) (ok : Bool) (duration : Nat)

def tqStep (s : TaskQueue) : TQEvent → TaskQueue
  | .add n p => s.add n p
  | .settle i ok d => s.settle i ok d

def tqRun (s : TaskQueue) (es : List TQEvent) : TaskQueue :=
  es.foldl tqStep s

/-- The facts about `runNext` used by the scheduling claims: it preserves the
configuration, results and arrival counter, only appends to the running list,
respects the concurrency cap, and starts at least one task when a slot is
free and the queue is non-empty. -/
theorem runNext_facts :
    ∀ (n : Nat) (s : TaskQueue), s.queue.length ≤ n →
      (runNext s).concurrency = s.concurrency ∧
      (runNext s).results = s.results ∧
      (runNext s).nextArrival = s.nextArrival ∧
      (∃ ext, (runNext s).running = s.running ++ ext) ∧
      (s.running.length ≤ s.concurrency →
        (runNext s).running.length ≤ s.concurrency) ∧
      (s.running.length < s.concurrency → s.queue ≠ [] →
        s.running.length + 1 ≤ (runNext s).running.length) := by
  intro n
  induction n with
  | zero =>
    intro s hn
    have hq : s.queue = [] := List.length_eq_zero.mp (Nat.le_zero.mp hn)
    have hrn : runNext s = s := by
      rw [runNext.eq_def]
      simp [hq]
    rw [hrn]
    exact ⟨rfl, rfl, rfl, ⟨[], by simp⟩, fun h => h, fun _ h2 => absurd hq h2⟩
  | succ n ih =>
    intro s hn
    by_cases hg : s.running.length ≥ s.concurrency ∨ s.queue = []
    · have hrn : runNext s = s := by
        rw [runNext.eq_def]
        simp [hg]
      rw [hrn]
      refine ⟨rfl, rfl, rfl, ⟨[], by simp⟩, fun h => h, fun h1 h2 => ?_⟩
      rcases hg with hg | hg
      · omega
      · exact absurd hg h2
    · have hg' := hg
      push_neg at hg'
      obtain ⟨hgc, hgq⟩ := hg'
      cases hsort : sortDesc s.queue with
      | nil =>
        exfalso
        have hL := length_sortDesc s.queue
        rw [hsort] at hL
        exact hgq (List.length_eq_zero.mp hL.symm)
      | cons t rest =>
        have hrn : runNext s =
            runNext { s with queue := rest, running := s.running ++ [t] } := by
          conv_lhs => rw [runNext.eq_def]
          rw [if_neg hg]
          split
          · rename_i heq
            rw [hsort] at heq
            exact absurd heq (by simp)
          · rename_i t2 rest2 heq
            rw [hsort] at heq
            injection heq with h1 h2
            rw [h1, h2]
        have hrest : rest.length ≤ n := by
          have hL := length_sortDesc s.queue
          rw [hsort] at hL
          simp at hL
          omega
        obtain ⟨hc, hr, ha, ⟨ext, hext⟩, hb, _⟩ :=
          ih { s with queue := rest, running := s.running ++ [t] } hrest
        rw [hrn]
        refine ⟨hc, hr, ha, ⟨[t] ++ ext, by rw [hext]; simp⟩,
          fun hle => hb (by simp; omega), fun _ _ => ?_⟩
        rw [hext]
        simp

theorem tqStep_cap (s : TaskQueue) (e : TQEvent)
    (h : s.running.length ≤ s.concurrency) :
    (tqStep s e).running.length ≤ (tqStep s e).concurrency ∧
    (tqStep s e).concurrency = s.concurrency := by
  cases e with
  | add nm p =>
    obtain ⟨hc, _, _, _, hb, _⟩ := runNext_facts (s.queue.length + 1)
      { s with queue := s.queue ++ [⟨nm, p, s.nextArrival⟩]
               nextArrival := s.nextArrival + 1 } (by simp)
    rw [tqStep, TaskQueue.add]
    exact ⟨by rw [hc]; exact hb (by simpa using h), hc⟩
  | settle i ok d =>
    rw [tqStep, TaskQueue.settle]
    cases hi : s.running[i]? with
    | none => exact ⟨h, rfl⟩
    | some t =>
      have hlt : i < s.running.length := by
        by_contra hc
        push_neg at hc
        rw [List.getElem?_eq_none hc] at hi
        exact Option.noConfusion hi
      obtain ⟨hc, _, _, _, hb, _⟩ := runNext_facts s.queue.length
        { s with running := s.running.eraseIdx i
                 results := s.results ++ [⟨t.taskName, ok, d⟩] } (by simp)
      have harg : ({ s with running := s.running.eraseIdx i,
                            results := s.results ++ [⟨t.taskName, ok, d⟩] } :
          TaskQueue).running.length ≤ s.concurrency := by
        simp [List.length_eraseIdx, hlt]
        omega
      exact ⟨by rw [hc]; exact hb harg, hc⟩

theorem tqRun_cap : ∀ (es : List TQEvent) (s : TaskQueue),
    s.running.length ≤ s.concurrency →
    (tqRun s es).running.length ≤ (tqRun s es).concurrency ∧
    (tqRun s es).concurrency = s.concurrency := by
  intro es
  induction es with
  | nil => exact fun s h => ⟨h, rfl⟩
  | cons e es ih =>
    intro s h
    obtain ⟨h1, h2⟩ := tqStep_cap s e h
    obtain ⟨h3, h4⟩ := ih (tqStep s e) h1
    exact ⟨h3, h4.trans h2⟩

/-- C5.  Scheduler concurrency invariant: for every sequence of add/settle
events on a TaskQueue constructed with a positive concurrency `c`, the number
of simultaneously started, unsettled tasks never exceeds `c`.  (A zero or
absent concurrency option is falsy in JavaScript and falls back to 3.) -/
theorem C5_scheduler_concurrency (es : List TQEvent) (c : Nat) (hc : 0 < c) :
    (tqRun (mkTaskQueue (some c)) es).running.length ≤ c := by
  have hconc : (mkTaskQueue (some c)).concurrency = c := by
    cases c with
    | zero => omega
    | succ n => rfl
  obtain ⟨h1, h2⟩ := tqRun_cap es (mkTaskQueue (some c)) (by simp [mkTaskQueue])
  rw [h2, hconc] at h1
  exact h1

/-- C5 witness: three submissions and one settlement on a queue with
concurrency 2. -/
theorem C5_scheduler_concurrency_witness :
    (tqRun (mkTaskQueue (some 2))
      [.add "a" 0, .add "b" 5, .add "c" 1, .settle 0 true 10]).running.length ≤
      2 :=
  C5_scheduler_concurrency
    [.add "a" 0, .add "b" 5, .add "c" 1, .settle 0 true 10] 2 (by decide)

theorem comb_to_tie (a b : QTask) (h : CombOrd a b) : TieOrd a b := by
  intro heq
  rcases h with h | h
  · omega
  · exact h.2

/-- When a slot is free and the queue is non-empty, one `runNext` step starts
the head of the stably sorted queue. -/
theorem runNext_step (s : TaskQueue) (t : QTask) (rest : List QTask)
    (hg : ¬(s.running.length ≥ s.concurrency ∨ s.queue = []))
    (hsort : sortDesc s.queue = t :: rest) :
    runNext s = runNext { s with queue := rest, running := s.running ++ [t] } := by
  conv_lhs => rw [runNext.eq_def]
  rw [if_neg hg]
  split
  · rename_i heq
    rw [hsort] at heq
    exact absurd heq (by simp)
  · rename_i t2 rest2 heq
    rw [hsort] at heq
    injection heq with h1 h2
    rw [h1, h2]

/-- The head of the stable descending sort has maximal priority, and the
earliest arrival among the entries sharing that priority (given that the
queue lists equal-priority entries in arrival order). -/
theorem sortDesc_head_max (queue : List QTask) (t : QTask) (rest : List QTask)
    (hp : queue.Pairwise TieOrd) (hsort : sortDesc queue = t :: rest) :
    (∀ q ∈ queue, q.priority ≤ t.priority) ∧
    (∀ q ∈ queue, q.priority = t.priority → t.arrival ≤ q.arrival) := by
  have hcomb := sortDesc_pairwise queue hp
  rw [hsort] at hcomb
  rcases List.pairwise_cons.mp hcomb with ⟨ht, _⟩
  constructor
  · intro q hq
    have hq' : q ∈ t :: rest := by
      rw [← hsort]
      exact (mem_sortDesc queue q).mpr hq
    rcases List.mem_cons.mp hq' with rfl | hq2
    · exact le_refl _
    · rcases ht q hq2 with h | h
      · exact le_of_lt h
      · exact le_of_eq h.1.symm
  · intro q hq heq
    have hq' : q ∈ t :: rest := by
      rw [← hsort]
      exact (mem_sortDesc queue q).mpr hq
    rcases List.mem_cons.mp hq' with rfl | hq2
    · exact le_refl _
    · rcases ht q hq2 with h | h
      · exfalso; omega
      · exact le_of_lt h.2

/-- The reachability invariant of a TaskQueue: the queue lists equal-priority
tasks in submission order, and every queued arrival stamp is below the
counter. -/
def TQInv (s : TaskQueue) : Prop :=
  s.queue.Pairwise TieOrd ∧ ∀ q ∈ s.queue, q.arrival < s.nextArrival

theorem runNext_inv :
    ∀ (n : Nat) (s : TaskQueue), s.queue.length ≤ n → TQInv s →
      TQInv (runNext s) := by
  intro n
  induction n with
  | zero =>
    intro s hn hinv
    have hq : s.queue = [] := List.length_eq_zero.mp (Nat.le_zero.mp hn)
    have hrn : runNext s = s := by
      rw [runNext.eq_def]
      simp [hq]
    rw [hrn]
    exact hinv
  | succ n ih =>
    intro s hn hinv
    by_cases hg : s.running.length ≥ s.concurrency ∨ s.queue = []
    · have hrn : runNext s = s := by
        rw [runNext.eq_def]
        simp [hg]
      rw [hrn]
      exact hinv
    · cases hsort : sortDesc s.queue with
      | nil =>
        exfalso
        have hL := length_sortDesc s.queue
        rw [hsort] at hL
        push_neg at hg
        exact hg.2 (List.length_eq_zero.mp hL.symm)
      | cons t rest =>
        rw [runNext_step s t rest hg hsort]
        have hrest : rest.length ≤ n := by
          have hL := length_sortDesc s.queue
          rw [hsort] at hL
          simp at hL
          have : s.queue ≠ [] := by
            push_neg at hg
            exact hg.2
          have : 0 < s.queue.length := List.length_pos.mpr this
          omega
        refine ih _ hrest ⟨?_, ?_⟩
        · have hcomb := sortDesc_pairwise s.queue hinv.1
          rw [hsort] at hcomb
          exact (List.pairwise_cons.mp hcomb).2.imp
            (fun h => comb_to_tie _ _ h)
        · intro q hq
          have : q ∈ s.queue := by
            have : q ∈ sortDesc s.queue := by
              rw [hsort]
              exact List.mem_cons_of_mem t hq
            exact (mem_sortDesc s.queue q).mp this
          exact hinv.2 q this

theorem tqStep_inv (s : TaskQueue) (e : TQEvent) (hinv : TQInv s) :
    TQInv (tqStep s e) := by
  cases e with
  | add nm p =>
    rw [tqStep, TaskQueue.add]
    refine runNext_inv _ _ (le_refl _) ⟨?_, ?_⟩
    · refine List.pairwise_append.mpr ⟨hinv.1, List.pairwise_singleton _ _, ?_⟩
      intro a ha b hb heq
      simp at hb
      rw [hb]
      exact hinv.2 a ha
    · intro q hq
      simp at hq
      rcases hq with hq | hq
      · exact Nat.lt_succ_of_lt (hinv.2 q hq)
      · simp [hq]
  | settle i ok d =>
    rw [tqStep, TaskQueue.settle]
    cases hi : s.running[i]? with
    | none => exact hinv
    | some t => exact runNext_inv _ _ (le_refl _) ⟨hinv.1, hinv.2⟩

theorem tqRun_inv : ∀ (es : List TQEvent) (s : TaskQueue), TQInv s →
    TQInv (tqRun s es) := by
  intro es
  induction es with
  | nil => exact fun s h => h
  | cons e es ih => exact fun s h => ih (tqStep s e) (tqStep_inv s e h)

/-- C6.  Priority scheduling: whenever an execution slot is free and the
queue is non-empty, `runNext` starts the queued task with the highest
priority, ties broken by arrival (submission) order — the started task
appears at the first freed slot of the running list (first conjunct).  On
completion, the settlement records the task's outcome (name, ok/error,
duration) and immediately attempts to fill the freed slot: the running count
does not drop when work is queued (second conjunct).  Reachable queues do
list equal-priority tasks in arrival order, so the tie-break hypothesis holds
on every real trace (third conjunct). -/
theorem C6_priority_scheduling :
    (∀ s : TaskQueue, s.queue.Pairwise TieOrd →
       s.running.length < s.concurrency → s.queue ≠ [] →
       ∃ t rest, sortDesc s.queue = t :: rest ∧
         (runNext s).running[s.running.length]? = some t ∧
         (∀ q ∈ s.queue, q.priority ≤ t.priority) ∧
         (∀ q ∈ s.queue, q.priority = t.priority → t.arrival ≤ q.arrival)) ∧
    (∀ (s : TaskQueue) (i : Nat) (t : QTask) (ok : Bool) (d : Nat),
       s.running[i]? = some t →
       (TaskQueue.settle s i ok d).results =
         s.results ++ [⟨t.taskName, ok, d⟩] ∧
       (s.queue ≠ [] → s.running.length ≤ s.concurrency →
         s.running.length ≤ (TaskQueue.settle s i ok d).running.length)) ∧
    (∀ (es : List TQEvent) (c : Option Nat),
       (tqRun (mkTaskQueue c) es).queue.Pairwise TieOrd) := by
  refine ⟨?_, ?_, ?_⟩
  · intro s hp hfree hne
    cases hsort : sortDesc s.queue with
    | nil =>
      exfalso
      have hL := length_sortDesc s.queue
      rw [hsort] at hL
      exact hne (List.length_eq_zero.mp hL.symm)
    | cons t rest =>
      have hg : ¬(s.running.length ≥ s.concurrency ∨ s.queue = []) := by
        push_neg
        exact ⟨by omega, hne⟩
      refine ⟨t, rest, rfl, ?_, (sortDesc_head_max s.queue t rest hp hsort).1,
        (sortDesc_head_max s.queue t rest hp hsort).2⟩
      rw [runNext_step s t rest hg hsort]
      obtain ⟨_, _, _, ⟨ext, hext⟩, _, _⟩ := runNext_facts rest.length
        { s with queue := rest, running := s.running ++ [t] } (le_refl _)
      rw [hext, List.append_assoc]
      have h0 := @List.getElem?_append_right QTask s.running ([t] ++ ext)
        s.running.length (le_refl s.running.length)
      rw [h0]
      simp
  · intro s i t ok d hi
    have hlt : i < s.running.length := by
      by_contra hc
      push_neg at hc
      rw [List.getElem?_eq_none hc] at hi
      exact Option.noConfusion hi
    rw [TaskQueue.settle, hi]
    obtain ⟨_, hresults, _, ⟨ext, hext⟩, _, hgrow⟩ := runNext_facts s.queue.length
      { s with running := s.running.eraseIdx i
               results := s.results ++ [⟨t.taskName, ok, d⟩] } (le_refl _)
    constructor
    · rw [hresults]
    · intro hne hcap
      have hg := hgrow (by simp [List.length_eraseIdx, hlt]; omega)
        (by simpa using hne)
      simp [List.length_eraseIdx, hlt] at hg
      rw [hext]
      simp [List.length_eraseIdx, hlt]
      rw [hext] at hg
      simp [List.length_eraseIdx, hlt] at hg
      omega
  · intro es c
    exact (tqRun_inv es (mkTaskQueue c) ⟨by simp [mkTaskQueue], by simp [mkTaskQueue]⟩).1

/-- C6 witness: a queue holding a priority-1 and a priority-5 task with one
of two slots taken, and the settlement of a single running task. -/
theorem C6_priority_scheduling_witness :
    (∃ t rest,
       sortDesc [⟨"a", 1, 1⟩, ⟨"b", 5, 2⟩] = t :: rest ∧
       (runNext ⟨2, [⟨"r", 0, 0⟩], [⟨"a", 1, 1⟩, ⟨"b", 5, 2⟩], [], 3⟩).running[1]? =
         some t ∧
       (∀ q ∈ ([⟨"a", 1, 1⟩, ⟨"b", 5, 2⟩] : List QTask),
         q.priority ≤ t.priority) ∧
       (∀ q ∈ ([⟨"a", 1, 1⟩, ⟨"b", 5, 2⟩] : List QTask),
         q.priority = t.priority → t.arrival ≤ q.arrival)) ∧
    (TaskQueue.settle ⟨2, [⟨"r", 0, 0⟩], [], [], 1⟩ 0 true 10).results =
      [] ++ [⟨"r", true, 10⟩] := by
  constructor
  · exact C6_priority_scheduling.1
      ⟨2, [⟨"r", 0, 0⟩], [⟨"a", 1, 1⟩, ⟨"b", 5, 2⟩], [], 3⟩
      (by decide) (by decide) (by decide)
  · exact (C6_priority_scheduling.2.1 ⟨2, [⟨"r", 0, 0⟩], [], [], 1⟩ 0
      ⟨"r", 0, 0⟩ true 10 (by decide)).1

/-! ## String-keyed association lists

JavaScript objects used as string-keyed maps (`this.sessions`, `this.pages`)
are modelled as association lists with at most one entry per key:
`setAssoc` is property assignment, `eraseAssoc` is `delete`. -/

def lookupAssoc {α : Type} : List (String × α) → String → Option α
  | [], _ => none
  | e :: es, d => if e.1 = d then some e.2 else lookupAssoc es d

def setAssoc {α : Type} : List (String × α) → String → α → List (String × α)
  | [], d, v => [(d, v)]
  | e :: es, d, v => if e.1 = d then (d, v) :: es else e :: setAssoc es d v

def eraseAssoc {α : Type} : List (String × α) → String → List (String × α)
  | [], _ => []
  | e :: es, d => if e.1 = d then eraseAssoc es d else e :: eraseAssoc es d

theorem lookup_setAssoc_self {α : Type} (d : String) (v : α) :
    ∀ l : List (String × α), lookupAssoc (setAssoc l d v) d = some v := by
  intro l
  induction l with
  | nil => simp [setAssoc, lookupAssoc]
  | cons e es ih =>
    by_cases he : e.1 = d
    · simp [setAssoc, lookupAssoc, he]
    · simp [setAssoc, lookupAssoc, he, ih]

theorem lookup_eraseAssoc_self {α : Type} (d : String) :
    ∀ l : List (String × α), lookupAssoc (eraseAssoc l d) d = none := by
  intro l
  induction l with
  | nil => simp [eraseAssoc, lookupAssoc]
  | cons e es ih =>
    by_cases he : e.1 = d
    · simp [eraseAssoc, he, ih]
    · simp [eraseAssoc, lookupAssoc, he, ih]

theorem mem_setAssoc {α : Type} (d : String) (v : α) :
    ∀ (l : List (String × α)) (e : String × α),
      e ∈ setAssoc l d v → e.2 = v ∨ e ∈ l := by
  intro l
  induction l with
  | nil =>
    intro e he
    simp [setAssoc] at he
    left
    rw [he]
  | cons x xs ih =>
    intro e he
    by_cases hx : x.1 = d
    · simp only [setAssoc, hx, if_true] at he
      rcases List.mem_cons.mp he with rfl | h
      · left; rfl
      · right; exact List.mem_cons_of_mem x h
    · simp only [setAssoc, hx, if_false] at he
      rcases List.mem_cons.mp he with rfl | h
      · right; exact List.mem_cons_self _ _
      · rcases ih e h with h2 | h2
        · left; exact h2
        · right; exact List.mem_cons_of_mem x h2

theorem lookupAssoc_cases {α : Type} :
    ∀ (l : List (String × α)) (d : String),
      lookupAssoc l d = none ∨ ∃ e ∈ l, lookupAssoc l d = some e.2 := by
  intro l
  induction l with
  | nil => intro d; left; rfl
  | cons e es ih =>
    intro d
    by_cases he : e.1 = d
    · right
      exact ⟨e, List.mem_cons_self _ _, by simp [lookupAssoc, he]⟩
    · rcases ih d with h | ⟨x, hx, hlook⟩
      · left
        simp [lookupAssoc, he, h]
      · right
        exact ⟨x, List.mem_cons_of_mem e hx, by simp [lookupAssoc, he, hlook]⟩

/-! ## SessionManager (src/services/session-manager.js)

A session record holds the freshness timestamp (milliseconds since epoch;
`none` models a missing or empty `timestamp` field, which is falsy) and the
cookie set (cookies identified by `Nat`).  `files` models the on-disk
`sessions/<domain>.json` files.  The JavaScript validity test
`(now - sessionTime) / (1000*60*60) < 24` over IEEE doubles coincides with
the integer comparison `now - ts < 24*3600000` for integer millisecond
timestamps, which is how it is stated here. -/

structure Session where
  timestamp : Option Int
  cookies : List Nat
deriving Repr, DecidableEq

structure SMState where
  initialized : Bool
  sessions : List (String × Session)
  files : List (String × Session)
deriving Repr, DecidableEq

/-- session-manager.js line 9: `SESSION_VALIDITY_HOURS = 24`. -/
def SESSION_VALIDITY_HOURS : Int := 24

def sessionValidityMs : Int := SESSION_VALIDITY_HOURS * (1000 * 60 * 60)

/-- session-manager.js lines 71-81. -/
def isSessionValid (sessionData : Option Session) (now : Int) : Bool :=
  match sessionData with
  | none => false
  | some sd =>
    match sd.timestamp with
    | none => false
    | some ts => now - ts < sessionValidityMs

/-- session-manager.js lines 24-64: load every stored file whose session is
still valid; delete expired files.  Idempotent via the `initialized` flag. -/
def smInit (st : SMState) (now : Int) : SMState :=
  if st.initialized then st
  else
    { initialized := true
      sessions := st.sessions ++
        st.files.filter (fun e => isSessionValid (some e.2) now)
      files := st.files.filter (fun e => isSessionValid (some e.2) now) }

/-- session-manager.js lines 124-149: a found-but-expired session is deleted
from the in-memory map and from disk, and `null` is returned; a valid session
is returned as-is. -/
def getSession (st : SMState) (d : String) (now : Int) :
    Option Session × SMState :=
  let st := if st.initialized then st else smInit st now
  match lookupAssoc st.sessions d with
  | none => (none, st)
  | some s =>
    if isSessionValid (some s) now then (some s, st)
    else
      (none, { st with sessions := eraseAssoc st.sessions d
                       files := eraseAssoc st.files d })

/-- session-manager.js lines 90-117: the in-memory map is overwritten with
the freshly-timestamped record BEFORE the file write; a write failure
(`writeOk = false`) is caught and reported as `false`, leaving the in-memory
update in place and the disk unchanged. -/
def saveSession (st : SMState) (d : String) (cookies : List Nat) (now : Int)
    (writeOk : Bool) : Bool × SMState :=
  let st := if st.initialized then st else smInit st now
  let sd : Session := ⟨some now, cookies⟩
  let st1 : SMState := { st with sessions := setAssoc st.sessions d sd }
  if writeOk then (true, { st1 with files := setAssoc st1.files d sd })
  else (false, st1)

/-- C8.  Session expiry: on an initialized manager, a stored session whose
age meets or exceeds the 24-hour validity window is never returned —
`getSession` deletes the expired record from the in-memory map and its
on-disk file and returns none, and a second `getSession` call (at any later
instant) observes the deletion and returns none again.  Conversely, whenever
`getSession` returns a session, that session is valid at `now`, i.e.
`now - timestamp < 24h` (last conjunct). -/
theorem C8_session_expiry (st : SMState) (d : String) (now now2 : Int)
    (s : Session) (ts : Int)
    (hinit : st.initialized = true)
    (hlook : lookupAssoc st.sessions d = some s)
    (hts : s.timestamp = some ts)
    (hexp : now - ts ≥ sessionValidityMs) :
    (getSession st d now).1 = none ∧
    lookupAssoc (getSession st d now).2.sessions d = none ∧
    lookupAssoc (getSession st d now).2.files d = none ∧
    (getSession (getSession st d now).2 d now2).1 = none ∧
    (∀ (st2 : SMState) (r : Session), st2.initialized = true →
       (getSession st2 d now).1 = some r →
       isSessionValid (some r) now = true) := by
  have hval : isSessionValid (some s) now = false := by
    rw [isSessionValid, hts]
    simp
    omega
  have hg : getSession st d now =
      (none, { st with sessions := eraseAssoc st.sessions d
                       files := eraseAssoc st.files d }) := by
    rw [getSession]
    simp only [hinit, if_true, hlook, hval, Bool.false_eq_true, if_false]
  refine ⟨by rw [hg], ?_, ?_, ?_, ?_⟩
  · rw [hg]
    exact lookup_eraseAssoc_self d st.sessions
  · rw [hg]
    exact lookup_eraseAssoc_self d st.files
  · rw [hg]
    rw [getSession]
    simp only [hinit, if_true]
    rw [lookup_eraseAssoc_self d st.sessions]
  · intro st2 r hinit2 hr
    rw [getSession] at hr
    simp only [hinit2, if_true] at hr
    cases hlook2 : lookupAssoc st2.sessions d with
    | none => rw [hlook2] at hr; exact Option.noConfusion hr
    | some s2 =>
      rw [hlook2] at hr
      by_cases hv : isSessionValid (some s2) now = true
      · simp only [hv, if_true] at hr
        injection hr with hr
        rw [← hr]
        exact hv
      · simp only [hv, if_false] at hr
        exact Option.noConfusion hr

/-- C8 witness: the spec's scenario — a session for domain "x" whose
timestamp is 25 hours old with a 24-hour window is deleted and never
served. -/
theorem C8_session_expiry_witness :
    (getSession ⟨true, [("x", ⟨some 0, [1]⟩)], [("x", ⟨some 0, [1]⟩)]⟩
      "x" 90000000).1 = none ∧
    lookupAssoc (getSession ⟨true, [("x", ⟨some 0, [1]⟩)],
      [("x", ⟨some 0, [1]⟩)]⟩ "x" 90000000).2.sessions "x" = none ∧
    lookupAssoc (getSession ⟨true, [("x", ⟨some 0, [1]⟩)],
      [("x", ⟨some 0, [1]⟩)]⟩ "x" 90000000).2.files "x" = none := by
  have h := C8_session_expiry ⟨true, [("x", ⟨some 0, [1]⟩)],
    [("x", ⟨some 0, [1]⟩)]⟩ "x" 90000000 90000000 ⟨some 0, [1]⟩ 0
    rfl (by simp [lookupAssoc]) rfl (by norm_num [sessionValidityMs, SESSION_VALIDITY_HOURS])
  exact ⟨h.1, h.2.1, h.2.2.1⟩

/-- C10.  `saveSession` is not atomic on persistence failure: on an
initialized manager, when the on-disk write fails, the call returns `false`,
but the in-memory session map has already been overwritten with the new
freshly-timestamped record and the disk is unchanged, so a subsequent
`getSession` for that domain returns the fresh record despite the reported
failure. -/
theorem C10_saveSession_nonatomic (st : SMState) (d : String)
    (cookies : List Nat) (now : Int) (hinit : st.initialized = true) :
    (saveSession st d cookies now false).1 = false ∧
    lookupAssoc (saveSession st d cookies now false).2.sessions d =
      some ⟨some now, cookies⟩ ∧
    (saveSession st d cookies now false).2.files = st.files ∧
    (getSession (saveSession st d cookies now false).2 d now).1 =
      some ⟨some now, cookies⟩ := by
  have hs : saveSession st d cookies now false =
      (false, { st with sessions := setAssoc st.sessions d ⟨some now, cookies⟩ }) := by
    rw [saveSession]
    simp only [hinit, if_true, Bool.false_eq_true, if_false]
  have hvalid : isSessionValid (some ⟨some now, cookies⟩) now = true := by
    rw [isSessionValid]
    simp [sessionValidityMs, SESSION_VALIDITY_HOURS]
  refine ⟨by rw [hs], ?_, by rw [hs], ?_⟩
  · rw [hs]
    exact lookup_setAssoc_self d _ st.sessions
  · rw [hs]
    rw [getSession]
    simp only [hinit, if_true]
    rw [lookup_setAssoc_self d _ st.sessions]
    simp only [hvalid, if_true]

/-- C10 witness: saving over an empty initialized manager with a failing
write at instant 1000. -/
theorem C10_saveSession_nonatomic_witness :
    (saveSession ⟨true, [], []⟩ "x" [9] 1000 false).1 = false ∧
    lookupAssoc (saveSession ⟨true, [], []⟩ "x" [9] 1000 false).2.sessions
      "x" = some ⟨some 1000, [9]⟩ ∧
    (saveSession ⟨true, [], []⟩ "x" [9] 1000 false).2.files = [] ∧
    (getSession (saveSession ⟨true, [], []⟩ "x" [9] 1000 false).2
      "x" 1000).1 = some ⟨some 1000, [9]⟩ :=
  C10_saveSession_nonatomic ⟨true, [], []⟩ "x" [9] 1000 rfl

/-! ## BrowserPool (src/services/browser-pool.js)

Pages are identified by a numeric id with an `inUse` flag; `pages` maps each
domain to its handle list, `timers` is the set of page ids with a pending
idle-eviction timer.  The browser reference is `none` (null), `some true`
(connected) or `some false` (disconnected).  The responsiveness of a page
during the trivial `page.evaluate(() => true)` round-trip is supplied by the
oracle `resp` carried in the event.  Each event is one complete operation of
the pool, run to completion before the next (the claim quantifies over
sequences of operations). -/

structure PageData where
  id : Nat
  inUse : Bool
deriving Repr, DecidableEq

structure PoolState where
  browser : Option Bool
  pages : List (String × List PageData)
  timers : List Nat
  maxPagesPerDomain : Nat
  handlerRegistered : Bool
  nextPageId : Nat
deriving Repr, DecidableEq

/-- Constructor (lines 18-27): `options.maxPagesPerDomain || 2`. -/
def mkBrowserPool (m : Option Nat) : PoolState :=
  { browser := none
    pages := []
    timers := []
    maxPagesPerDomain :=
      match m with
      | none => 2
      | some 0 => 2
      | some n => n
    handlerRegistered := false
    nextPageId := 0 }

def lookupDomain (pages : List (String × List PageData)) (d : String) :
    List PageData :=
  (lookupAssoc pages d).getD []

/-- The reuse loop of `getPage` (lines 172-201): scan the domain's handles in
order; the first free handle is marked in-use and its responsiveness checked —
if responsive it is claimed (`some id` returned), if not it is spliced out and
the scan continues.  In-use handles are left in place. -/
def reuseScan (resp : Nat → Bool) : List PageData → Option Nat × List PageData
  | [] => (none, [])
  | p :: ps =>
    if p.inUse then
      ((reuseScan resp ps).1, p :: (reuseScan resp ps).2)
    else if resp p.id then
      (some p.id, { p with inUse := true } :: ps)
    else
      reuseScan resp ps

theorem reuseScan_length (resp : Nat → Bool) :
    ∀ l : List PageData, (reuseScan resp l).2.length ≤ l.length := by
  intro l
  induction l with
  | nil => simp [reuseScan]
  | cons p ps ih =>
    rw [reuseScan]
    by_cases hu : p.inUse
    · simp only [hu, if_true]
      simp
      exact ih
    · simp only [hu, Bool.false_eq_true, if_false]
      by_cases hr : resp p.id
      · simp [hr]
      · simp only [hr, Bool.false_eq_true, if_false]
        exact le_trans ih (by simp)

/-- browser-pool.js lines 66-120: launch only when no browser reference is
held (a disconnected browser is not relaunched here). -/
def launchBrowserStep (st : PoolState) : PoolState :=
  if st.browser.isSome then st else { st with browser := some true }

/-- browser-pool.js lines 155-340, one complete `getPage(domain)` call.
A null browser is initialized first; a disconnected browser throws (no state
change).  Otherwise the reuse scan runs (its splices persist); on a claim the
claimed page's idle timer is cancelled; with no claim a new page is created
only below the per-domain cap, and otherwise the caller is left polling for a
release — no page is created. -/
def getPageStep (st : PoolState) (d : String) (resp : Nat → Bool) :
    PoolState :=
  let st := launchBrowserStep st
  if st.browser = some false then st
  else
    let cur := lookupDomain st.pages d
    let scan := reuseScan resp cur
    match scan.1 with
    | some pid =>
        { st with pages := setAssoc st.pages d scan.2
                  timers := st.timers.filter (fun x => x ≠ pid) }
    | none =>
        if scan.2.length < st.maxPagesPerDomain then
          { st with pages := setAssoc st.pages d
                      (scan.2 ++ [⟨st.nextPageId, true⟩])
                    nextPageId := st.nextPageId + 1 }
        else
          { st with pages := setAssoc st.pages d scan.2 }

/-- The proxy's `release` method (lines 352-380): mark the handle free and
start its idle timer. -/
def releaseStep (st : PoolState) (d : String) (pid : Nat) : PoolState :=
  let cur := lookupDomain st.pages d
  let cur2 := cur.map (fun p => if p.id = pid then { p with inUse := false } else p)
  { st with pages := setAssoc st.pages d cur2
            timers := st.timers ++ [pid] }

/-- The idle-timer callback (lines 361-379): if the page is still present and
free, close and remove it; the timer entry is deleted in any case. -/
def idleTimeoutStep (st : PoolState) (d : String) (pid : Nat) : PoolState :=
  if pid ∈ st.timers then
    let cur := lookupDomain st.pages d
    match cur.find? (fun p => p.id == pid) with
    | some p =>
        if p.inUse then { st with timers := st.timers.erase pid }
        else
          let cur2 := cur.filter (fun q => q.id ≠ pid)
          { st with pages := setAssoc st.pages d cur2
                    timers := st.timers.erase pid }
    | none => { st with timers := st.timers.erase pid }
  else st

/-- browser-pool.js lines 400-441. -/
def closeStep (st : PoolState) : PoolState :=
  { st with browser := none, pages := [], timers := [] }

/-- browser-pool.js lines 126-133. -/
def setDisconnectHandler (st : PoolState) : PoolState :=
  { st with handlerRegistered := true }

/-- browser-pool.js lines 139-148: clear page tracking, keep the browser
reference. -/
def cleanupResources (st : PoolState) : PoolState :=
  { st with pages := [], timers := [] }

/-- The observable actions of the `disconnected` listener, in program
order. -/
inductive PoolAction where
  | clearState
  | invokeHandler
deriving Repr, DecidableEq

/-- The `browser.on('disconnected', ...)` listener (lines 78-112): the
browser is now disconnected (the stale reference is deliberately kept for
detection); `wasInitialized` is latched, `cleanupResources()` clears the page
tracking state FIRST (line 102), and only then is the registered handler
invoked (lines 105-111).  The returned action list is the chronological
order of the two effects. -/
def onBrowserDisconnected (st : PoolState) : PoolState × List PoolAction :=
  let st0 := { st with browser := st.browser.map (fun _ => false) }
  let wasInitialized := st0.browser.isSome
  let st1 := cleanupResources st0
  if wasInitialized && st0.handlerRegistered then
    (st1, [.clearState, .invokeHandler])
  else
    (st1, [.clearState])

inductive PoolEvent where
  | launch
  | getPage (d : String) (resp : Nat → Bool)
  | release (d : String) (pid : Nat)
  | idleTimeout (d : String) (pid : Nat)
  | disconnected
  | close
  | registerHandler

def poolStep (st : PoolState) : PoolEvent → PoolState
  | .launch => launchBrowserStep st
  | .getPage d resp => getPageStep st d resp
  | .release d pid => releaseStep st d pid
  | .idleTimeout d pid => idleTimeoutStep st d pid
  | .disconnected => (onBrowserDisconnected st).1
  | .close => closeStep st
  | .registerHandler => setDisconnectHandler st

def poolRun (st : PoolState) (es : List PoolEvent) : PoolState :=
  es.foldl poolStep st

/-- The per-domain cap invariant: no domain tracks more than
`maxPagesPerDomain` page handles. -/
def PoolCapOk (st : PoolState) : Prop :=
  ∀ e ∈ st.pages, e.2.length ≤ st.maxPagesPerDomain

theorem lookupDomain_le (st : PoolState) (d : String) (h : PoolCapOk st) :
    (lookupDomain st.pages d).length ≤ st.maxPagesPerDomain := by
  rw [lookupDomain]
  rcases lookupAssoc_cases st.pages d with hc | ⟨e, he, hc⟩
  · rw [hc]
    simp
  · rw [hc]
    simpa using h e he

theorem launchBrowserStep_fields (st : PoolState) :
    (launchBrowserStep st).pages = st.pages ∧
    (launchBrowserStep st).maxPagesPerDomain = st.maxPagesPerDomain := by
  rw [launchBrowserStep]
  split
  · exact ⟨rfl, rfl⟩
  · exact ⟨rfl, rfl⟩

theorem getPageStep_cap (st : PoolState) (d : String) (resp : Nat → Bool)
    (h : PoolCapOk st) :
    PoolCapOk (getPageStep st d resp) ∧
    (getPageStep st d resp).maxPagesPerDomain = st.maxPagesPerDomain := by
  obtain ⟨hp1, hm1⟩ := launchBrowserStep_fields st
  have h1 : PoolCapOk (launchBrowserStep st) := by
    intro x hx
    rw [hp1] at hx
    rw [hm1]
    exact h x hx
  have hcur : (lookupDomain (launchBrowserStep st).pages d).length ≤
      st.maxPagesPerDomain := by
    rw [← hm1]
    exact lookupDomain_le (launchBrowserStep st) d h1
  have hscanlen : (reuseScan resp (lookupDomain (launchBrowserStep st).pages d)).2.length ≤
      st.maxPagesPerDomain :=
    le_trans (reuseScan_length resp _) hcur
  rw [getPageStep]
  dsimp only
  by_cases hb : (launchBrowserStep st).browser = some false
  · rw [if_pos hb]
    exact ⟨h1, hm1⟩
  · rw [if_neg hb]
    cases hscan : (reuseScan resp (lookupDomain (launchBrowserStep st).pages d)).1 with
    | some pid =>
      simp only [hscan]
      refine ⟨?_, hm1⟩
      intro x hx
      simp only at hx
      rcases mem_setAssoc d _ (launchBrowserStep st).pages x hx with h2 | h2
      · rw [h2]
        simpa [hm1] using hscanlen
      · simpa [hm1] using (by rw [← hm1]; exact h1 x h2)
    | none =>
      simp only [hscan]
      by_cases hlt : (reuseScan resp (lookupDomain (launchBrowserStep st).pages d)).2.length <
          (launchBrowserStep st).maxPagesPerDomain
      · rw [if_pos hlt]
        refine ⟨?_, hm1⟩
        intro x hx
        simp only at hx
        rcases mem_setAssoc d _ (launchBrowserStep st).pages x hx with h2 | h2
        · rw [h2]
          simp only [List.length_append, List.length_cons, List.length_nil]
          rw [hm1] at hlt ⊢
          omega
        · simpa [hm1] using (by rw [← hm1]; exact h1 x h2)
      · rw [if_neg hlt]
        refine ⟨?_, hm1⟩
        intro x hx
        simp only at hx
        rcases mem_setAssoc d _ (launchBrowserStep st).pages x hx with h2 | h2
        · rw [h2]
          simpa [hm1] using hscanlen
        · simpa [hm1] using (by rw [← hm1]; exact h1 x h2)

theorem poolStep_cap (st : PoolState) (ev : PoolEvent) (h : PoolCapOk st) :
    PoolCapOk (poolStep st ev) ∧
    (poolStep st ev).maxPagesPerDomain = st.maxPagesPerDomain := by
  cases ev with
  | launch =>
    obtain ⟨hp, hm⟩ := launchBrowserStep_fields st
    rw [poolStep]
    refine ⟨?_, hm⟩
    intro x hx
    rw [hp] at hx
    rw [hm]
    exact h x hx
  | getPage d resp => exact getPageStep_cap st d resp h
  | release d pid =>
    rw [poolStep, releaseStep]
    dsimp only
    refine ⟨?_, rfl⟩
    intro x hx
    simp only at hx
    rcases mem_setAssoc d _ st.pages x hx with h2 | h2
    · rw [h2]
      simp only [List.length_map]
      exact lookupDomain_le st d h
    · exact h x h2
  | idleTimeout d pid =>
    rw [poolStep, idleTimeoutStep]
    by_cases ht : pid ∈ st.timers
    · rw [if_pos ht]
      dsimp only
      cases hf : (lookupDomain st.pages d).find? (fun p => p.id == pid) with
      | some p =>
        simp only [hf]
        by_cases hu : p.inUse
        · simp only [hu, if_true]
          exact ⟨fun x hx => h x hx, by trivial⟩
        · simp only [hu, Bool.false_eq_true, if_false]
          refine ⟨?_, by trivial⟩
          intro x hx
          simp only at hx
          rcases mem_setAssoc d _ st.pages x hx with h2 | h2
          · rw [h2]
            exact le_trans (List.length_filter_le _ _) (lookupDomain_le st d h)
          · exact h x h2
      | none =>
        simp only [hf]
        exact ⟨fun x hx => h x hx, by trivial⟩
    · rw [if_neg ht]
      exact ⟨h, rfl⟩
  | disconnected =>
    rw [poolStep, onBrowserDisconnected]
    dsimp only
    split
    · exact ⟨fun x hx => absurd hx (by simp [cleanupResources]), rfl⟩
    · exact ⟨fun x hx => absurd hx (by simp [cleanupResources]), rfl⟩
  | close =>
    rw [poolStep, closeStep]
    exact ⟨fun x hx => absurd hx (by simp), rfl⟩
  | registerHandler =>
    rw [poolStep, setDisconnectHandler]
    exact ⟨fun x hx => h x hx, rfl⟩

theorem poolRun_cap : ∀ (es : List PoolEvent) (st : PoolState),
    PoolCapOk st →
    PoolCapOk (poolRun st es) ∧
    (poolRun st es).maxPagesPerDomain = st.maxPagesPerDomain := by
  intro es
  induction es with
  | nil => exact fun st h => ⟨h, rfl⟩
  | cons e es ih =>
    intro st h
    obtain ⟨h1, h2⟩ := poolStep_cap st e h
    obtain ⟨h3, h4⟩ := ih (poolStep st e) h1
    exact ⟨h3, h4.trans h2⟩

/-- When the browser is connected, no free handle is claimable and the
domain's (scanned) handle list is at or above the cap, `getPage` leaves the
domain's handles exactly as the scan left them and creates no page (the page
id counter is untouched): the caller is left waiting for a release. -/
theorem getPage_at_cap (st : PoolState) (d : String) (resp : Nat → Bool)
    (hb : st.browser = some true)
    (hnone : (reuseScan resp (lookupDomain st.pages d)).1 = none)
    (hfull : ¬ (reuseScan resp (lookupDomain st.pages d)).2.length <
      st.maxPagesPerDomain) :
    lookupDomain (getPageStep st d resp).pages d =
      (reuseScan resp (lookupDomain st.pages d)).2 ∧
    (getPageStep st d resp).nextPageId = st.nextPageId := by
  have hinit : launchBrowserStep st = st := by
    rw [launchBrowserStep]
    rw [if_pos (by rw [hb]; rfl)]
  rw [getPageStep]
  dsimp only
  rw [hinit]
  rw [if_neg (by rw [hb]; simp)]
  simp only [hnone]
  rw [if_neg hfull]
  constructor
  · rw [lookupDomain, lookup_setAssoc_self]
    rfl
  · rfl

/-- C4.  Pool per-domain cap invariant: for every sequence of pool operations
from a freshly constructed BrowserPool, the number of page handles tracked for
any single domain — and hence the number with `inUse = true` — never exceeds
`maxPagesPerDomain` (first conjunct); and when a domain is at its cap with no
claimable free handle, `getPage` waits for a release instead of creating a
new page (second conjunct). -/
theorem C4_pool_per_domain_cap :
    (∀ (es : List PoolEvent) (m : Option Nat) (e : String × List PageData),
       e ∈ (poolRun (mkBrowserPool m) es).pages →
       e.2.length ≤ (mkBrowserPool m).maxPagesPerDomain ∧
       (e.2.filter (fun p => p.inUse)).length ≤
         (mkBrowserPool m).maxPagesPerDomain) ∧
    (∀ (st : PoolState) (d : String) (resp : Nat → Bool),
       st.browser = some true →
       (reuseScan resp (lookupDomain st.pages d)).1 = none →
       ¬ (reuseScan resp (lookupDomain st.pages d)).2.length <
         st.maxPagesPerDomain →
       lookupDomain (getPageStep st d resp).pages d =
         (reuseScan resp (lookupDomain st.pages d)).2 ∧
       (getPageStep st d resp).nextPageId = st.nextPageId) := by
  constructor
  · intro es m e he
    obtain ⟨hcap, hmax⟩ := poolRun_cap es (mkBrowserPool m)
      (fun x hx => absurd hx (by simp [mkBrowserPool]))
    have h1 := hcap e he
    rw [hmax] at h1
    exact ⟨h1, le_trans (List.length_filter_le _ _) h1⟩
  · exact fun st d resp hb hnone hfull => getPage_at_cap st d resp hb hnone hfull

/-- C4 witness: a one-slot domain at its cap with an unresponsive-free oracle
keeps its single handle and creates nothing; and a concrete run that opened a
page for domain "x" respects the cap 1. -/
theorem C4_pool_per_domain_cap_witness :
    (("x", [⟨0, true⟩]) ∈
        (poolRun (mkBrowserPool (some 1)) [.getPage "x" (fun _ => true)]).pages →
      ("x", ([⟨0, true⟩] : List PageData)).2.length ≤
        (mkBrowserPool (some 1)).maxPagesPerDomain) ∧
    lookupDomain (getPageStep ⟨some true, [("x", [⟨0, true⟩])], [], 1, false, 1⟩
        "x" (fun _ => false)).pages "x" = [⟨0, true⟩] ∧
    (getPageStep ⟨some true, [("x", [⟨0, true⟩])], [], 1, false, 1⟩
        "x" (fun _ => false)).nextPageId = 1 := by
  constructor
  · intro he
    exact (C4_pool_per_domain_cap.1 [.getPage "x" (fun _ => true)] (some 1)
      ("x", [⟨0, true⟩]) he).1
  · have h := C4_pool_per_domain_cap.2
      ⟨some true, [("x", [⟨0, true⟩])], [], 1, false, 1⟩ "x" (fun _ => false)
      rfl rfl (by decide)
    exact h

/-- C9 counterexample: on a pool with a registered handler, a held browser
reference and tracked pages, the `disconnected` listener's effect order is
clear-state first, handler second — the handler invocation does NOT happen
before the page-tracking state is cleared, contradicting the claim's
ordering. -/
theorem C9_disconnect_handler_counterexample :
    (onBrowserDisconnected ⟨some true, [("x", [⟨0, false⟩])], [0], 2, true, 1⟩).2 =
      [.clearState, .invokeHandler] ∧
    ¬ ((onBrowserDisconnected
        ⟨some true, [("x", [⟨0, false⟩])], [0], 2, true, 1⟩).2.indexOf
          .invokeHandler <
        (onBrowserDisconnected
          ⟨some true, [("x", [⟨0, false⟩])], [0], 2, true, 1⟩).2.indexOf
            .clearState) ∧
    (onBrowserDisconnected
      ⟨some true, [("x", [⟨0, false⟩])], [0], 2, true, 1⟩).1.pages = [] := by
  refine ⟨by decide, by decide, by decide⟩

/-- C9 (amended).  On every unexpected browser disconnect event with a
registered handler and a held browser reference, the handler is invoked
exactly once, and the invocation happens AFTER the pool's page-tracking state
(pages map and idle timers) is cleared: the listener's chronological effect
list is exactly clear-state followed by one handler invocation, and the
resulting state has empty page tracking while the (stale, now disconnected)
browser reference is kept for detection. -/
theorem C9_disconnect_handler_after_clear (st : PoolState)
    (hb : st.browser.isSome = true) (hr : st.handlerRegistered = true) :
    (onBrowserDisconnected st).2 = [.clearState, .invokeHandler] ∧
    (onBrowserDisconnected st).2.count .invokeHandler = 1 ∧
    (onBrowserDisconnected st).1.pages = [] ∧
    (onBrowserDisconnected st).1.timers = [] ∧
    (onBrowserDisconnected st).1.browser = some false := by
  obtain ⟨b, hbb⟩ := Option.isSome_iff_exists.mp hb
  rw [onBrowserDisconnected]
  dsimp only
  rw [hbb]
  simp only [Option.map_some', Option.isSome_some, hr, Bool.and_self, if_true]
  exact ⟨by trivial, by trivial, by trivial, by trivial, by trivial⟩

/-- C9 witness: the amended ordering evaluated on a concrete pool state. -/
theorem C9_disconnect_handler_after_clear_witness :
    (onBrowserDisconnected ⟨some true, [("y", [⟨3, true⟩])], [3], 2, true, 4⟩).2 =
      [.clearState, .invokeHandler] ∧
    (onBrowserDisconnected
      ⟨some true, [("y", [⟨3, true⟩])], [3], 2, true, 4⟩).2.count
        .invokeHandler = 1 ∧
    (onBrowserDisconnected
      ⟨some true, [("y", [⟨3, true⟩])], [3], 2, true, 4⟩).1.pages = [] ∧
    (onBrowserDisconnected
      ⟨some true, [("y", [⟨3, true⟩])], [3], 2, true, 4⟩).1.timers = [] ∧
    (onBrowserDisconnected
      ⟨some true, [("y", [⟨3, true⟩])], [3], 2, true, 4⟩).1.browser =
        some false :=
  C9_disconnect_handler_after_clear
    ⟨some true, [("y", [⟨3, true⟩])], [3], 2, true, 4⟩ rfl rfl
